import Mathlib

/-!
# Verification of the BiGG client core (cobrapy-bigg-client)

Shallow embedding of `cobrapy_bigg_client/client.py`: the reaction assembler
(`_build_reaction`), the `get_*` accessors, the `list_*` operations and the
LRU-cached resource fetcher (`_get`).  Python dictionaries are modelled as
insertion-ordered association lists; Python object identity is modelled by an
explicit allocation counter threaded through every constructor call (two
objects are "the same instance" exactly when their `alloc` fields agree,
because a fresh counter value is consumed at each construction).  Python
exceptions are modelled with `Except`.
-/

/-- Python exceptions surfaced by the client: `KeyError` (missing dict key),
`IndexError` (list index out of range), `ValueError` (the type guard of the
accessors, the spec's InvalidArgument, and cobra's duplicate-id rejection in
`DictList.append`), and `requests.HTTPError` (non-2xx response,
the spec's TransportError, carrying the HTTP status). -/
inductive PyErr where
  | keyError : PyErr
  | indexError : PyErr
  | valueError : PyErr
  | httpError : Nat → PyErr
deriving DecidableEq, Repr

/-- A transport-level error of the resource fetcher, carrying the HTTP status
(`response.raise_for_status`). -/
structure HttpErr where
  status : Nat
deriving DecidableEq, Repr

/-- Lookup in a Python dict modelled as an insertion-ordered association list
(keys are unique in a Python dict, so first-match lookup is exact). -/
def dlookup {α : Type} : List (String × α) → String → Option α
  | [], _ => none
  | e :: es, k => if e.1 = k then some e.2 else dlookup es k

/-- Insertion of a key that is not yet present (the client only ever assigns
dict entries after a failed membership test, so insertion order is append). -/
def dinsert {α : Type} (d : List (String × α)) (k : String) (v : α) : List (String × α) :=
  d ++ [(k, v)]

/-- In-place update of the value stored under a key (used for the species
dictionary of `get_metabolite`). -/
def dupdate {α : Type} : List (String × α) → String → (α → α) → List (String × α)
  | [], _, _ => []
  | e :: es, k, f => if e.1 = k then (e.1, f e.2) :: es else e :: dupdate es k f

/-- A cobra `Gene`: identity (`alloc` models Python object identity), BiGG id,
display name, and the annotation entries the client populates. -/
structure Gene where
  alloc : Nat
  id : String
  name : String
  annOrganism : Option String
  annDatabaseLinks : Option (List String)
  annProteinSequence : Option String
deriving DecidableEq, Repr

/-- A cobra `Metabolite`: identity, BiGG id, name, compartment, charge,
formula, and the annotation entries the client populates. -/
structure Metabolite where
  alloc : Nat
  id : String
  name : String
  compartment : Option String
  charge : Option Int
  formula : Option String
  annCharges : Option (List Int)
  annFormulae : Option (List String)
  annDatabaseLinks : Option (List String)
  annModels : Option (List String)
deriving DecidableEq, Repr

/-- A cobra `Reaction`: id, name, the stoichiometry mapping (keyed by
`Metabolite` object, coefficients from the JSON records), the gene set
(`_genes`, a frozenset modelled as a duplicate-free list), the gene reaction
rule, and the annotation entries `get_model_reaction` populates. -/
structure Reaction where
  id : String
  name : String
  stoich : List (Metabolite × Int)
  genes : List Gene
  geneReactionRule : String
  annPseudoreaction : Option Bool
  annEscherMaps : Option (List String)
  annDatabaseLinks : Option (List String)
  annModelsContainingReaction : Option (List String)
deriving DecidableEq, Repr

/-- A fresh `Reaction(id=..., name=...)` stub as built by the listing and
accessor functions: empty stoichiometry, no genes, empty rule, no
annotation entries. -/
def reactionStub (i n : String) : Reaction :=
  ⟨i, n, [], [], "", none, none, none, none⟩

abbrev GDict := List (String × Gene)
abbrev MDict := List (String × Metabolite)

/-- Key of the `_get` memoization cache: the exact
(resource kind, entity id, model id) triple, where the ids may be absent
(`None` in Python). -/
abbrev Triple := String × Option String × Option String

/-- Maximum entry count of the module-level response cache
(`LRU_CACHE = LRUCache(maxsize=524)`, client.py line 76). -/
def LRU_CACHE_MAXSIZE : Nat := 524

/-- The `cachetools.LRUCache` state: entries in recency order, most recently
used first.  A hit moves the entry to the front; an insertion beyond capacity
drops the last (least recently used) entry. -/
structure LRU (V : Type) where
  entries : List (Triple × V)
deriving DecidableEq, Repr

/-- First entry with the given key (exact triple equality, no normalization). -/
def assocFind {V : Type} : List (Triple × V) → Triple → Option (Triple × V)
  | [], _ => none
  | e :: es, t => if e.1 = t then some e else assocFind es t

/-- Remove the first entry with the given key. -/
def eraseKey {V : Type} : List (Triple × V) → Triple → List (Triple × V)
  | [], _ => []
  | e :: es, t => if e.1 = t then es else e :: eraseKey es t

/-- Cache lookup by exact triple. -/
def lruLookup {V : Type} (c : LRU V) (t : Triple) : Option V :=
  (assocFind c.entries t).map (fun e => e.2)

/-- `LRUCache.__getitem__` recency update: the entry touched becomes the most
recently used one. -/
def lruTouch {V : Type} (c : LRU V) (t : Triple) : LRU V :=
  match assocFind c.entries t with
  | none => c
  | some e => ⟨e :: eraseKey c.entries t⟩

/-- `LRUCache.__setitem__` of a key not yet present: prepend as most recently
used; if the capacity is exceeded, pop the least recently used entry. -/
def lruInsert {V : Type} (c : LRU V) (t : Triple) (v : V) : LRU V :=
  let es := (t, v) :: c.entries
  ⟨if LRU_CACHE_MAXSIZE < es.length then es.dropLast else es⟩

/-- The keys held by the cache, in recency order. -/
def lruKeys {V : Type} (c : LRU V) : List Triple :=
  c.entries.map (fun e => e.1)

/-- Embedding of `_get` (client.py lines 683-697) together with its
`@cached(LRU_CACHE)` decorator: on a hit the memoized parsed JSON is returned
with no network call and the entry is promoted to most recently used; on a
miss one network round trip is performed (the third component lists the
triples sent over the network) and a successful response is inserted into the
cache (`cachetools.cached` does not memoize exceptions).  The network itself
is an oracle from triples to parsed-JSON values or transport errors. -/
def cachedGet {V : Type} (net : Triple → Except HttpErr V) (c : LRU V) (t : Triple) :
    Except HttpErr V × LRU V × List Triple :=
  match lruLookup c t with
  | some v => (.ok v, lruTouch c t, [])
  | none =>
    match net t with
    | .ok v => (.ok v, lruInsert c t v, [t])
    | .error e => (.error e, c, [t])

/-- One entry of a copy record's `genes` list (`bigg_id`, `name`). -/
structure GeneRecord where
  biggId : String
  name : String
deriving DecidableEq, Repr

/-- One entry of a copy record's `metabolites` list (`bigg_id`, `name`,
`compartment_bigg_id`, `stoichiometry`). -/
structure MetRecord where
  biggId : String
  name : String
  compartmentBiggId : String
  stoichiometry : Int
deriving DecidableEq, Repr

/-- A reaction copy record as consumed by `_build_reaction`.  Every field a
plain dict access (`copy_data[...]`) may find missing is an `Option`; reading
a `none` field raises `KeyError`, exactly like the Python subscript. -/
structure CopyRecord where
  copyNumber : Option Int
  genes : Option (List GeneRecord)
  geneReactionRule : Option String
  modelsContainingReaction : Option (List String)
  metabolites : Option (List MetRecord)
deriving DecidableEq, Repr

/-- The compartmental identifier of a metabolite entry:
`bigg_id + "_" + compartment_bigg_id` (client.py line 737). -/
def compartmentalId (mr : MetRecord) : String :=
  mr.biggId ++ "_" ++ mr.compartmentBiggId

/-- Deep copy of a stoichiometry mapping (`reaction.copy()` is a deepcopy, so
every metabolite key becomes a fresh object). -/
def deepcopyStoich : List (Metabolite × Int) → Nat → List (Metabolite × Int) × Nat
  | [], a => ([], a)
  | (m, c) :: rest, a =>
    let r := deepcopyStoich rest (a + 1)
    (({ m with alloc := a }, c) :: r.1, r.2)

/-- Deep copy of a gene set. -/
def deepcopyGenes : List Gene → Nat → List Gene × Nat
  | [], a => ([], a)
  | g :: rest, a =>
    let r := deepcopyGenes rest (a + 1)
    ({ g with alloc := a } :: r.1, r.2)

/-- `reaction.copy()` (client.py line 708): a deep copy of the reaction, whose
metabolite and gene objects are fresh instances. -/
def reactionDeepcopy (r : Reaction) (a : Nat) : Reaction × Nat :=
  let s := deepcopyStoich r.stoich a
  let g := deepcopyGenes r.genes s.2
  ({ r with stoich := s.1, genes := g.1 }, g.2)

/-- Gene resolution of `_build_reaction` (client.py lines 716-723).
`genesEmpty` records whether the caller-supplied cache was falsy at entry, in
which case `genes = genes or _genes` aliased the name `genes` to the working
local dict, so the first lookup reads the local cache.  Resolution: the
caller-supplied cache, then the local cache, then a fresh `Gene` recorded in
the local cache.  Returns (resolved gene, updated local cache, allocator). -/
def resolveGene (genesEmpty : Bool) (genes : GDict) (lgenes : GDict) (a : Nat)
    (gr : GeneRecord) : Gene × GDict × Nat :=
  match (if genesEmpty then dlookup lgenes gr.biggId else dlookup genes gr.biggId) with
  | some g => (g, lgenes, a)
  | none =>
    match dlookup lgenes gr.biggId with
    | some g => (g, lgenes, a)
    | none =>
      let g : Gene := ⟨a, gr.biggId, gr.name, none, none, none⟩
      (g, dinsert lgenes gr.biggId g, a + 1)

/-- The gene loop of `_build_reaction` (client.py lines 714-726): resolve each
gene record, accumulate the resolved genes into a set (`genes_set`, membership
by object identity) and assign the set to the reaction's gene field on every
iteration.  State: remaining records, accumulated set, reaction, local gene
cache, allocator. -/
def genePhase (genesEmpty : Bool) (genes : GDict) :
    List GeneRecord → List Gene → Reaction → GDict → Nat → Reaction × GDict × Nat
  | [], _, rc, lg, a => (rc, lg, a)
  | gr :: rest, gset, rc, lg, a =>
    let r := resolveGene genesEmpty genes lg a gr
    let gset2 := if r.1 ∈ gset then gset else gset ++ [r.1]
    genePhase genesEmpty genes rest gset2 { rc with genes := gset2 } r.2.1 r.2.2

/-- Metabolite resolution of `_build_reaction` (client.py lines 736-748).
`metsEmpty` records whether the caller-supplied metabolite cache was falsy at
entry, in which case `metabolites = metabolites or _metabolites` aliased the
name `metabolites` to the working local dict.  Resolution: the local cache by
compartmental id; else the dict currently bound to `metabolites` by universal
id — on a hit the value is cloned (`*.copy()` is a deepcopy, hence a fresh
instance), its id reassigned to the compartmental id, its compartment set,
and the clone inserted into the local cache; else a fresh `Metabolite`
inserted into the local cache. -/
def resolveMetabolite (metsEmpty : Bool) (mets : MDict) (lmets : MDict) (a : Nat)
    (mr : MetRecord) : Metabolite × MDict × Nat :=
  let cid := compartmentalId mr
  match dlookup lmets cid with
  | some m => (m, lmets, a)
  | none =>
    match (if metsEmpty then dlookup lmets mr.biggId else dlookup mets mr.biggId) with
    | some m0 =>
      let m : Metabolite :=
        { m0 with alloc := a, id := cid, compartment := some mr.compartmentBiggId }
      (m, dinsert lmets cid m, a + 1)
    | none =>
      let m : Metabolite :=
        ⟨a, cid, mr.name, some mr.compartmentBiggId, none, none, none, none, none, none⟩
      (m, dinsert lmets cid m, a + 1)

/-- Update of the per-build `stoichiometry` dict (client.py line 750): keyed
by metabolite object (identity semantics — cobra objects hash by identity);
assigning to a present key replaces its coefficient. -/
def supdate (st : List (Metabolite × Int)) (m : Metabolite) (c : Int) :
    List (Metabolite × Int) :=
  if m ∈ st.map Prod.fst then
    st.map (fun p => if p.1 = m then (p.1, c) else p)
  else st ++ [(m, c)]

/-- The metabolite loop of `_build_reaction` (client.py lines 734-750):
resolve each entry and record its coefficient in the accumulated
stoichiometry dict.  State: remaining records, stoichiometry dict, local
metabolite cache, allocator. -/
def stoichPhase (metsEmpty : Bool) (mets : MDict) :
    List MetRecord → List (Metabolite × Int) → MDict → Nat →
      List (Metabolite × Int) × MDict × Nat
  | [], st, lm, a => (st, lm, a)
  | mr :: rest, st, lm, a =>
    let r := resolveMetabolite metsEmpty mets lm a mr
    stoichPhase metsEmpty mets rest (supdate st r.1 mr.stoichiometry) r.2.1 r.2.2

/-- `Reaction.add_metabolites(stoichiometry, combine=False)` of the cobra
collaborator: each (metabolite, coefficient) pair is matched against the
reaction's existing stoichiometry BY IDENTIFIER; a present identifier keeps
the existing metabolite object and replaces its coefficient, an absent one
appends the pair.  (Replace semantics, no summation.) -/
def applyStoich : List (Metabolite × Int) → List (Metabolite × Int) → List (Metabolite × Int)
  | old, [] => old
  | old, (m, c) :: rest =>
    if m.id ∈ old.map (fun p => p.1.id) then
      applyStoich (old.map (fun p => if p.1.id = m.id then (p.1, c) else p)) rest
    else
      applyStoich (old ++ [(m, c)]) rest

/-- `reaction_copy.add_metabolites(stoichiometry, combine=False)`
(client.py line 751) through the cobra collaborator. -/
def add_metabolites (r : Reaction) (st : List (Metabolite × Int)) : Reaction :=
  { r with stoich := applyStoich r.stoich st }

/-- Caller visibility of writes to a passed-in local cache dict: the falsy
defaults `_genes = _genes or {}` / `_metabolites = _metabolites or {}`
(client.py lines 702-703) rebind the local name to a FRESH dict whenever the
caller passed `None` or an empty dict, so in that case the writes never reach
the caller's dict. -/
def visibleDict {α : Type} (passed finalContents : List (String × α)) : List (String × α) :=
  if passed.isEmpty then passed else finalContents

/-- Decidable equality for `Except`, so that concrete runs of the embedded
functions can be checked by `decide`. -/
instance {ε α : Type} [DecidableEq ε] [DecidableEq α] : DecidableEq (Except ε α) := fun x y =>
  match x, y with
  | .ok a, .ok b =>
    if h : a = b then .isTrue (by rw [h]) else .isFalse (by intro hc; cases hc; exact h rfl)
  | .error a, .error b =>
    if h : a = b then .isTrue (by rw [h]) else .isFalse (by intro hc; cases hc; exact h rfl)
  | .ok _, .error _ => .isFalse (by intro hc; cases hc)
  | .error _, .ok _ => .isFalse (by intro hc; cases hc)

/-- Result of one `_build_reaction` call: the returned (or raised) value plus
the post-call contents of the four dictionaries the caller passed in, and the
allocator. -/
structure BuildOut where
  result : Except PyErr Reaction
  genesOut : GDict
  lgenesOut : GDict
  metsOut : MDict
  lmetsOut : MDict
  alloc : Nat
deriving DecidableEq, Repr

/-- The gene/metabolite assembly body of `_build_reaction` (client.py lines
713-753).  Arguments mirror the Python parameters; a caller passing `None`
for a dict is modelled by the empty list (the falsy defaults of lines 702-705
treat `None` and `{}` identically).  The flags `genes.isEmpty` /
`mets.isEmpty` reproduce the aliasing of `genes = genes or _genes` and
`metabolites = metabolites or _metabolites`; `visibleDict` reproduces which
dict the local writes landed in. -/
def build_reaction_body (copyData : CopyRecord) (rc0 : Reaction)
    (genes : GDict) (lgenes : GDict) (mets : MDict) (lmets : MDict) (a0 : Nat) : BuildOut :=
    match copyData.genes with
    | some glist =>
      let gp := genePhase genes.isEmpty genes glist [] rc0 lgenes a0
      match copyData.geneReactionRule with
      | none =>
        ⟨.error .keyError, genes, visibleDict lgenes gp.2.1, mets, lmets, gp.2.2⟩
      | some rule =>
        let rc1 := { gp.1 with geneReactionRule := rule }
        match copyData.metabolites with
        | some ml =>
          let sp := stoichPhase mets.isEmpty mets ml [] lmets gp.2.2
          ⟨.ok (add_metabolites rc1 sp.1), genes, visibleDict lgenes gp.2.1, mets,
            visibleDict lmets sp.2.1, sp.2.2⟩
        | none =>
          ⟨.ok rc1, genes, visibleDict lgenes gp.2.1, mets, visibleDict lmets lmets, gp.2.2⟩
    | none =>
      let rc1 :=
        match copyData.modelsContainingReaction with
        | some ms => { rc0 with annModelsContainingReaction := some ms }
        | none => rc0
      match copyData.metabolites with
      | some ml =>
        let sp := stoichPhase mets.isEmpty mets ml [] lmets a0
        ⟨.ok (add_metabolites rc1 sp.1), genes, visibleDict lgenes lgenes, mets,
          visibleDict lmets sp.2.1, sp.2.2⟩
      | none =>
        ⟨.ok rc1, genes, visibleDict lgenes lgenes, mets, visibleDict lmets lmets, a0⟩

/-- Embedding of `_build_reaction` (client.py lines 700-753): the `copy_number
> 0` clone step (lines 707-711, reading the copy record's `copy_number` for
the identifier suffix) followed by the gene/metabolite assembly body. -/
def build_reaction (copyData : CopyRecord) (reaction : Reaction) (copy_number : Int)
    (genes : GDict) (lgenes : GDict) (mets : MDict) (lmets : MDict) (a : Nat) : BuildOut :=
  match (if copy_number > 0 then
          match copyData.copyNumber with
          | none => Except.error PyErr.keyError
          | some n =>
            let rc := reactionDeepcopy reaction a
            Except.ok ({ rc.1 with id := reaction.id ++ "_" ++ toString n }, rc.2)
         else Except.ok (reaction, a)) with
  | .error e => ⟨.error e, genes, lgenes, mets, lmets, a⟩
  | .ok (rc0, a0) => build_reaction_body copyData rc0 genes lgenes mets lmets a0

/-- The top-level JSON of a model-scoped reaction resource as consumed by
`get_model_reaction`.  `copy_number` is an `Option` because the code reads
`data[COPY_NUMBER]` on the top-level record (client.py line 451) and a
missing key raises `KeyError`. -/
structure ModelReactionData where
  name : String
  count : Nat
  copyNumber : Option Int
  pseudoreaction : Bool
  escherMaps : List String
  databaseLinks : List String
  results : List CopyRecord
deriving DecidableEq, Repr

/-- The top-level JSON of a universal reaction resource as consumed by
`get_reaction`: the whole document is handed to `_build_reaction` as the copy
record (client.py line 382), plus the `name` field read separately. -/
structure UnivReactionData where
  name : String
  record : CopyRecord
deriving DecidableEq, Repr

/-- Result of `get_model_reaction` after the fetch: the (annotated, possibly
populated) base reaction, the copy list, the post-call contents of the two
caller-supplied caches, and the allocator. -/
structure CoreOut where
  reaction : Reaction
  copies : List Reaction
  genesOut : GDict
  metsOut : MDict
  alloc : Nat
deriving DecidableEq, Repr

/-- The copy loop of `get_model_reaction` (client.py lines 450-452): every
iteration passes the TOP-LEVEL record's `copy_number` (`data[COPY_NUMBER]`)
as the copy number, together with the shared local caches `_genes` and
`_metabolites` created at lines 448-449.  State: remaining copy records, base
reaction, the four dict contents, allocator, accumulated copies.  (When the
passed copy number is not positive, `_build_reaction` returns the base
reaction object itself, which in Python the copies list then aliases; the
embedding stores its value at append time.) -/
def copyLoop (dataCopyNumber : Option Int) :
    List CopyRecord → Reaction → GDict → GDict → MDict → MDict → Nat → List Reaction →
      Except PyErr CoreOut
  | [], r, genes, _, mets, _, a, acc => .ok ⟨r, acc, genes, mets, a⟩
  | cd :: rest, r, genes, lgenes, mets, lmets, a, acc =>
    match dataCopyNumber with
    | none => .error .keyError
    | some n =>
      let b := build_reaction cd r n genes lgenes mets lmets a
      match b.result with
      | .error e => .error e
      | .ok rr =>
        copyLoop dataCopyNumber rest (if n > 0 then r else rr) b.genesOut b.lgenesOut
          b.metsOut b.lmetsOut b.alloc (acc ++ [rr])

/-- Embedding of `get_model_reaction` after the `_get` fetch (client.py lines
429-454): annotate the base reaction (pseudoreaction flag, escher maps —
appended when already present — and database links), then either assemble the
single copy onto the base reaction with copy number 0, or run the copy loop
with fresh shared local caches. -/
def get_model_reaction_core (data : ModelReactionData) (reaction0 : Reaction)
    (genes : GDict) (mets : MDict) (a : Nat) : Except PyErr CoreOut :=
  let r1 := { reaction0 with
    annPseudoreaction := some data.pseudoreaction
    annEscherMaps :=
      match reaction0.annEscherMaps with
      | none => some data.escherMaps
      | some old => some (old ++ data.escherMaps)
    annDatabaseLinks := some data.databaseLinks }
  if data.count = 1 then
    match data.results with
    | [] => .error .indexError
    | cd :: _ =>
      let b := build_reaction cd r1 0 genes [] mets [] a
      match b.result with
      | .error e => .error e
      | .ok rr => .ok ⟨rr, [], b.genesOut, b.metsOut, b.alloc⟩
  else
    copyLoop data.copyNumber data.results r1 genes [] mets [] a []

/-- The universe of Python values an accessor argument can take in this
embedding: a string identifier, a domain object, or a value of neither kind
(the integer case of the spec's type-guard scenario). -/
inductive PyVal where
  | str : String → PyVal
  | reactionV : Reaction → PyVal
  | metaboliteV : Metabolite → PyVal
  | geneV : Gene → PyVal
  | intV : Int → PyVal
deriving Repr

/-- Embedding of `get_reaction` (client.py lines 337-383): type-guard the
argument (anything other than a `Reaction` or a string raises `ValueError`
before any fetch), fetch the universal reaction resource through the cached
`_get`, build a stub when only an id was supplied, and delegate to
`_build_reaction` with copy number 0 and `None` local caches.  Returns the
result, the cache state, the list of network calls performed, and the
allocator. -/
def get_reaction (arg : PyVal) (genes : GDict) (mets : MDict)
    (net : Triple → Except HttpErr UnivReactionData) (c : LRU UnivReactionData) (a : Nat) :
    Except PyErr Reaction × LRU UnivReactionData × List Triple × Nat :=
  match (match arg with
         | .reactionV r => Except.ok (r.id, some r)
         | .str s => Except.ok (s, (none : Option Reaction))
         | _ => Except.error PyErr.valueError) with
  | .error e => (.error e, c, [], a)
  | .ok (rid, r?) =>
    let f := cachedGet net c ("reactions", some rid, none)
    match f.1 with
    | .error e => (.error (.httpError e.status), f.2.1, f.2.2, a)
    | .ok data =>
      let reaction := match r? with
        | some r => r
        | none => reactionStub rid data.name
      let b := build_reaction data.record reaction 0 genes [] mets [] a
      (b.result, f.2.1, f.2.2, b.alloc)

/-- Embedding of `get_model_reaction` (client.py lines 386-454), combining
the type guard, the cached fetch of the model-scoped reaction resource and
`get_model_reaction_core`. -/
def get_model_reaction (modelId : String) (arg : PyVal) (mets : MDict) (genes : GDict)
    (net : Triple → Except HttpErr ModelReactionData) (c : LRU ModelReactionData) (a : Nat) :
    Except PyErr (Reaction × List Reaction) × LRU ModelReactionData × List Triple × Nat :=
  match (match arg with
         | .reactionV r => Except.ok (r.id, some r)
         | .str s => Except.ok (s, (none : Option Reaction))
         | _ => Except.error PyErr.valueError) with
  | .error e => (.error e, c, [], a)
  | .ok (rid, r?) =>
    let f := cachedGet net c ("reactions", some rid, some modelId)
    match f.1 with
    | .error e => (.error (.httpError e.status), f.2.1, f.2.2, a)
    | .ok data =>
      let reaction := match r? with
        | some r => r
        | none => reactionStub rid data.name
      match get_model_reaction_core data reaction genes mets a with
      | .error e => (.error e, f.2.1, f.2.2, a)
      | .ok o => (.ok (o.reaction, o.copies), f.2.1, f.2.2, o.alloc)

/-- One entry of `compartments_in_models` in a universal metabolite resource. -/
structure CompartmentRecord where
  biggId : String
  modelBiggId : String
deriving DecidableEq, Repr

/-- The top-level JSON of a universal metabolite resource as consumed by
`get_metabolite`. -/
structure MetaboliteData where
  name : String
  charges : List Int
  formulae : List String
  databaseLinks : List String
  compartmentsInModels : List CompartmentRecord
deriving DecidableEq, Repr

/-- The match of `METABOLITE_COMPARTMENT_REGEX = re.compile("^(.+)(_[a-z])$")`
against a character list, returning group 1 on success: the input must end in
an underscore followed by ONE lowercase ASCII letter, preceded by a nonempty
stem that contains no newline (`.` does not match a newline).  Matching
against the reversed list makes the fixed-width suffix structural. -/
def matchStem (cs : List Char) : Option (List Char) :=
  match cs.reverse with
  | c :: u :: rest =>
    if u = '_' ∧ c.isLower ∧ rest ≠ [] ∧ '\n' ∉ rest then some rest.reverse else none
  | _ => none

/-- The universal metabolite identifier derived by `get_metabolite`
(client.py lines 546-550): group 1 of the compartment regex when it matches,
the input unchanged otherwise.  Python's `$` also matches just before a
single trailing newline, which the pre-trim reproduces. -/
def derive_universal_id (s : String) : String :=
  let cs := s.data
  let core := if cs.getLast? = some '\n' then cs.dropLast else cs
  match matchStem core with
  | some stem => String.mk stem
  | none => s

/-- The base universal metabolite built by `get_metabolite` from the response
of the identifier that succeeded (client.py lines 558-568): id is the INPUT
identifier, name from the response, charge/formula from the first list entry
when the list is nonempty, annotation entries from the response, and an empty
model set. -/
def buildMetaboliteBase (mid : String) (d : MetaboliteData) (a : Nat) : Metabolite :=
  ⟨a, mid, d.name, none, d.charges.head?, d.formulae.head?, some d.charges,
    some d.formulae, some d.databaseLinks, some []⟩

/-- Set-insertion into the model-membership annotation
(`annotation[MODELS].add(...)`). -/
def addModelAnn (x : String) (m : Metabolite) : Metabolite :=
  { m with annModels := some (match m.annModels with
      | none => [x]
      | some l => if x ∈ l then l else l ++ [x]) }

/-- The species loop of `get_metabolite` (client.py lines 570-580): for each
compartment record, a first encounter of the compartment deep-copies the base
metabolite (fresh instance), reassigns its id to `<input id>_<compartment>`
and its compartment, and inserts it; in all cases the model id is added to
that species' model-membership set. -/
def speciesFold (base : Metabolite) :
    List CompartmentRecord → List (String × Metabolite) → Nat →
      List (String × Metabolite) × Nat
  | [], sp, a => (sp, a)
  | cd :: rest, sp, a =>
    match dlookup sp cd.biggId with
    | some _ =>
      speciesFold base rest (dupdate sp cd.biggId (addModelAnn cd.modelBiggId)) a
    | none =>
      let copy := { base with
        alloc := a, id := base.id ++ "_" ++ cd.biggId, compartment := some cd.biggId }
      speciesFold base rest
        (dupdate (dinsert sp cd.biggId copy) cd.biggId (addModelAnn cd.modelBiggId)) (a + 1)

/-- Embedding of `get_metabolite` (client.py lines 516-582): type-guard the
argument, derive the universal identifier, fetch it through the cached `_get`;
on `requests.HTTPError` retry once with the literal identifier; build the
universal metabolite and its per-compartment species from whichever response
succeeded.  Returns the result, the cache state, the network calls performed,
and the allocator. -/
def get_metabolite (arg : PyVal) (net : Triple → Except HttpErr MetaboliteData)
    (c : LRU MetaboliteData) (a : Nat) :
    Except PyErr (Metabolite × List (String × Metabolite)) × LRU MetaboliteData ×
      List Triple × Nat :=
  match (match arg with
         | .str s => Except.ok s
         | .metaboliteV m => Except.ok m.id
         | _ => Except.error PyErr.valueError) with
  | .error e => (.error e, c, [], a)
  | .ok mid =>
    let uid := derive_universal_id mid
    let f1 := cachedGet net c ("metabolites", some uid, none)
    match f1.1 with
    | .ok d =>
      let base := buildMetaboliteBase mid d a
      let sp := speciesFold base d.compartmentsInModels [] (a + 1)
      (.ok (base, sp.1), f1.2.1, f1.2.2, sp.2)
    | .error _ =>
      let f2 := cachedGet net f1.2.1 ("metabolites", some mid, none)
      match f2.1 with
      | .error e2 => (.error (.httpError e2.status), f2.2.1, f1.2.2 ++ f2.2.2, a)
      | .ok d =>
        let base := buildMetaboliteBase mid d a
        let sp := speciesFold base d.compartmentsInModels [] (a + 1)
        (.ok (base, sp.1), f2.2.1, f1.2.2 ++ f2.2.2, sp.2)

/-- The JSON of a model-scoped gene resource as consumed by `get_model_gene`. -/
structure GeneData where
  name : String
  databaseLinks : List String
  proteinSequence : String
deriving DecidableEq, Repr

/-- Embedding of `get_model_gene` (client.py lines 643-680): type-guard the
argument (a string or a `Gene`), fetch the model-scoped gene resource through
the cached `_get`, and build a `Gene` with database-links and
protein-sequence annotations. -/
def get_model_gene (modelId : String) (arg : PyVal)
    (net : Triple → Except HttpErr GeneData) (c : LRU GeneData) (a : Nat) :
    Except PyErr Gene × LRU GeneData × List Triple × Nat :=
  match (match arg with
         | .str s => Except.ok s
         | .geneV g => Except.ok g.id
         | _ => Except.error PyErr.valueError) with
  | .error e => (.error e, c, [], a)
  | .ok gid =>
    let f := cachedGet net c ("genes", some gid, some modelId)
    match f.1 with
    | .error e => (.error (.httpError e.status), f.2.1, f.2.2, a)
    | .ok d =>
      (.ok ⟨a, gid, d.name, none, some d.databaseLinks, some d.proteinSequence⟩,
        f.2.1, f.2.2, a + 1)

/-- A record of a universal reaction or metabolite collection (`bigg_id`,
`name`). -/
structure ListRecord where
  biggId : String
  name : String
deriving DecidableEq, Repr

/-- A record of a model-scoped metabolite collection (`bigg_id`, `name`,
`compartment_bigg_id`). -/
structure ModelMetListRecord where
  biggId : String
  name : String
  compartmentBiggId : String
deriving DecidableEq, Repr

/-- A record of a model-scoped gene collection (`bigg_id`, `name`,
`organism`). -/
structure GeneListRecord where
  biggId : String
  name : String
  organism : String
deriving DecidableEq, Repr

/-- Embedding of `list_reactions` (client.py lines 274-300) after the fetch:
fold over the result records, skipping any record whose `bigg_id` is already
the id of an accumulated reaction (`if reaction_id in reactions: continue`),
otherwise appending a fresh reaction stub. -/
def list_reactions : List ListRecord → List Reaction → List Reaction
  | [], acc => acc
  | rd :: rest, acc =>
    if rd.biggId ∈ acc.map Reaction.id then list_reactions rest acc
    else list_reactions rest (acc ++ [reactionStub rd.biggId rd.name])

/-- Embedding of `list_model_reactions` (client.py lines 303-334) after the
fetch: identical fold to `list_reactions`, over the model-scoped collection. -/
def list_model_reactions : List ListRecord → List Reaction → List Reaction
  | [], acc => acc
  | rd :: rest, acc =>
    if rd.biggId ∈ acc.map Reaction.id then list_model_reactions rest acc
    else list_model_reactions rest (acc ++ [reactionStub rd.biggId rd.name])

/-- `DictList.append` of the cobra collaborator: appending an entry whose id
is already present raises `ValueError` (`DictList._check`). -/
def dictListAppend (acc : List Metabolite) (m : Metabolite) :
    Except PyErr (List Metabolite) :=
  if m.id ∈ acc.map Metabolite.id then .error .valueError else .ok (acc ++ [m])

/-- Embedding of `list_metabolites` (client.py lines 457-479) after the
fetch: every record is turned into a `Metabolite(id=bigg_id, name=name)` and
appended to a cobra `DictList` WITHOUT any duplicate check in the client, so
a duplicate `bigg_id` makes the append raise. -/
def list_metabolites : List ListRecord → List Metabolite → Nat →
    Except PyErr (List Metabolite)
  | [], acc, _ => .ok acc
  | rd :: rest, acc, a =>
    match dictListAppend acc
        ⟨a, rd.biggId, rd.name, none, none, none, none, none, none, none⟩ with
    | .error e => .error e
    | .ok acc2 => list_metabolites rest acc2 (a + 1)

/-- Embedding of `list_model_metabolites` (client.py lines 482-513) after the
fetch: fold over the records, deriving the compartmental id
`bigg_id + "_" + compartment_bigg_id`, skipping records whose derived id
already appeared, and appending `Metabolite(id=<compartmental id>, name=name)`
(the compartment field is NOT set here). -/
def list_model_metabolites : List ModelMetListRecord → List Metabolite → Nat →
    List Metabolite
  | [], acc, _ => acc
  | rd :: rest, acc, a =>
    if rd.biggId ++ "_" ++ rd.compartmentBiggId ∈ acc.map Metabolite.id then
      list_model_metabolites rest acc a
    else
      list_model_metabolites rest
        (acc ++ [⟨a, rd.biggId ++ "_" ++ rd.compartmentBiggId, rd.name,
          none, none, none, none, none, none, none⟩]) (a + 1)

/-- Embedding of `list_model_genes` (client.py lines 617-640) after the
fetch: a plain Python list comprehension-style loop with NO duplicate
handling — one `Gene` per record, with the organism annotation set. -/
def list_model_genes : List GeneListRecord → Nat → List Gene
  | [], _ => []
  | rd :: rest, a =>
    ⟨a, rd.biggId, rd.name, some rd.organism, none, none⟩ :: list_model_genes rest (a + 1)

/-- Modelled from the claim text (C2): resolve a metabolite entry in the
priority order (a) local cache by compartmental id, (b) CALLER-SUPPLIED cache
by universal id with clone-reassign-insert, (c) fresh construction with
insert.  Identical to `resolveMetabolite` except that step (b) always reads
the caller-supplied cache, never the local one. -/
def claimResolveMetabolite (mets : MDict) (lmets : MDict) (a : Nat)
    (mr : MetRecord) : Metabolite × MDict × Nat :=
  let cid := compartmentalId mr
  match dlookup lmets cid with
  | some m => (m, lmets, a)
  | none =>
    match dlookup mets mr.biggId with
    | some m0 =>
      let m : Metabolite :=
        { m0 with alloc := a, id := cid, compartment := some mr.compartmentBiggId }
      (m, dinsert lmets cid m, a + 1)
    | none =>
      let m : Metabolite :=
        ⟨a, cid, mr.name, some mr.compartmentBiggId, none, none, none, none, none, none⟩
      (m, dinsert lmets cid m, a + 1)

/-- The metabolite loop as the claim describes it: `claimResolveMetabolite`
folded over the record list. -/
def claimStoichPhase (mets : MDict) :
    List MetRecord → List (Metabolite × Int) → MDict → Nat →
      List (Metabolite × Int) × MDict × Nat
  | [], st, lm, a => (st, lm, a)
  | mr :: rest, st, lm, a =>
    let r := claimResolveMetabolite mets lm a mr
    claimStoichPhase mets rest (supdate st r.1 mr.stoichiometry) r.2.1 r.2.2

/-- Modelled from the claim text (C5): the universal identifier is the input
with a trailing suffix of an underscore followed by ONE OR TWO lowercase
letters stripped, and an input with no such suffix is used unmodified. -/
def claim_universal_id (s : String) : String :=
  match s.data.reverse with
  | c2 :: c1 :: rest =>
    if c2.isLower ∧ c1 = '_' then String.mk rest.reverse
    else
      match rest with
      | u :: rest2 =>
        if c2.isLower ∧ c1.isLower ∧ u = '_' then String.mk rest2.reverse else s
      | _ => s
  | _ => s

/-- First-occurrence filter: keep each element whose key has not been seen
before (the de-duplication discipline the listing claims describe). -/
def firstOccBy {α : Type} (key : α → String) : List α → List String → List α
  | [], _ => []
  | x :: rest, seen =>
    if key x ∈ seen then firstOccBy key rest seen
    else x :: firstOccBy key rest (seen ++ [key x])

/-- Failing input for C1: a model-scoped reaction resource with two copies
that both reference gene `g1`, assembled with an empty caller-supplied gene
cache (the default) — the top-level `copy_number` is present and positive so
that the copy loop runs the clone path. -/
def c1_data : ModelReactionData :=
  ⟨"Rn", 2, some 1, false, [], [],
    [⟨some 1, some [⟨"g1", "gn"⟩], some "g1", none, none⟩,
     ⟨some 2, some [⟨"g1", "gn"⟩], some "g1", none, none⟩]⟩

/-- C1: the claim states that two reaction copies assembled by one
`get_model_reaction` call with the same caller-supplied and local caches
resolve a shared gene identifier to the same instance.  Evaluating the code
on `c1_data` shows the two copies `R_1` and `R_2` hold gene `g1` as two
DISTINCT instances (allocations 0 and 1): `_genes = _genes or {}` replaces
the empty shared local cache with a fresh dict on every call, so the
cross-copy sharing that `get_model_reaction`'s shared `_genes`/`_metabolites`
dicts are there to provide never happens. -/
theorem c1_shared_cache_evaluation :
    (match get_model_reaction_core c1_data (reactionStub "R" "Rn") [] [] 0 with
      | .ok o => o.copies.map (fun (r : Reaction) =>
          (r.id, r.genes.map (fun (g : Gene) => (g.id, g.alloc))))
      | .error _ => []) = [("R_1", [("g1", 0)]), ("R_2", [("g1", 1)])] := by decide

/-- Failing input for C3: a model-scoped reaction resource with `count = 2`
whose copies declare copy numbers 1 and 2, but whose TOP-LEVEL record has no
`copy_number` field (model-scoped reaction payloads carry `copy_number` only
inside each result entry). -/
def c3_data : ModelReactionData :=
  ⟨"Rn", 2, none, false, [], [],
    [⟨some 1, some [⟨"g1", "gn"⟩], some "g1", none, none⟩,
     ⟨some 2, some [⟨"g1", "gn"⟩], some "g1", none, none⟩]⟩

/-- C3: the claim states that for `count = N > 1` the call returns exactly N
per-copy variants with identifiers from each copy's declared copy number.
The code instead passes the TOP-LEVEL record's `copy_number`
(`data[COPY_NUMBER]`, client.py line 451) to `_build_reaction`, not the
copy's own; on the payload shape the API serves (no top-level `copy_number`)
the `count > 1` path raises `KeyError` instead of returning the variants. -/
theorem c3_copy_number_evaluation :
    get_model_reaction_core c3_data (reactionStub "R" "Rn") [] [] 0 =
      .error .keyError := by decide

/-- C2 counterexample: with an empty (defaulted) caller-supplied metabolite
cache, `metabolites = metabolites or _metabolites` makes step (b) read the
LOCAL cache by universal id instead of the caller-supplied cache.  On a
record whose second entry's universal id `x_c` equals the first entry's
compartmental id, the code clones the locally cached metabolite (keeping name
`n1`) where the claim's resolution procedure constructs a fresh metabolite
with the record's name `n2`. -/
theorem c2_resolution_counterexample :
    (stoichPhase (([] : MDict).isEmpty) []
        [⟨"x", "n1", "c", 1⟩, ⟨"x_c", "n2", "d", 2⟩] [] [] 0).1.map
      (fun (p : Metabolite × Int) => (p.1.id, p.1.name)) =
        [("x_c", "n1"), ("x_c_d", "n1")] ∧
    (claimStoichPhase []
        [⟨"x", "n1", "c", 1⟩, ⟨"x_c", "n2", "d", 2⟩] [] [] 0).1.map
      (fun (p : Metabolite × Int) => (p.1.id, p.1.name)) =
        [("x_c", "n1"), ("x_c_d", "n2")] ∧
    stoichPhase (([] : MDict).isEmpty) []
        [⟨"x", "n1", "c", 1⟩, ⟨"x_c", "n2", "d", 2⟩] [] [] 0 ≠
      claimStoichPhase [] [⟨"x", "n1", "c", 1⟩, ⟨"x_c", "n2", "d", 2⟩] [] [] 0 := by
  refine ⟨by decide, by decide, by decide⟩

/-- C4 counterexample: `list_model_genes` performs no de-duplication (it
builds a plain list with one `Gene` per record, client.py lines 634-638), so
a result list with two records for gene `g` yields two returned genes with
the same identifier, refuting the claim that every listing operation returns
pairwise-distinct identifiers. -/
theorem c4_listing_counterexample :
    (list_model_genes [⟨"g", "n", "o"⟩, ⟨"g", "n", "o"⟩] 0).map Gene.id = ["g", "g"] ∧
    ¬ ((list_model_genes [⟨"g", "n", "o"⟩, ⟨"g", "n", "o"⟩] 0).map Gene.id).Nodup := by
  refine ⟨by decide, by decide⟩

/-- C5 counterexample: `METABOLITE_COMPARTMENT_REGEX` is `^(.+)(_[a-z])$` —
ONE lowercase letter, not one or two.  On `atp_pp` the claim's rule strips
the two-letter suffix and prescribes base identifier `atp`, but the code
leaves the identifier unchanged. -/
theorem c5_suffix_counterexample :
    derive_universal_id "atp_pp" = "atp_pp" ∧
    claim_universal_id "atp_pp" = "atp" ∧
    ("atp_pp" : String) ≠ "atp" := by
  refine ⟨by decide, by decide, by decide⟩

/-- C8: every accessor type-guards its polymorphic argument: an argument that
is neither the expected domain object nor a string makes `get_reaction`,
`get_model_reaction`, `get_metabolite` and `get_model_gene` raise the
invalid-argument error (`ValueError`) immediately, with the cache untouched,
no network call performed, and no allocation made. -/
theorem c8_type_guard :
    (∀ (arg : PyVal) (genes : GDict) (mets : MDict)
       (net : Triple → Except HttpErr UnivReactionData) (c : LRU UnivReactionData) (a : Nat),
      (∀ s, arg ≠ .str s) → (∀ r, arg ≠ .reactionV r) →
      get_reaction arg genes mets net c a = (.error .valueError, c, [], a)) ∧
    (∀ (modelId : String) (arg : PyVal) (mets : MDict) (genes : GDict)
       (net : Triple → Except HttpErr ModelReactionData) (c : LRU ModelReactionData) (a : Nat),
      (∀ s, arg ≠ .str s) → (∀ r, arg ≠ .reactionV r) →
      get_model_reaction modelId arg mets genes net c a = (.error .valueError, c, [], a)) ∧
    (∀ (arg : PyVal) (net : Triple → Except HttpErr MetaboliteData)
       (c : LRU MetaboliteData) (a : Nat),
      (∀ s, arg ≠ .str s) → (∀ m, arg ≠ .metaboliteV m) →
      get_metabolite arg net c a = (.error .valueError, c, [], a)) ∧
    (∀ (modelId : String) (arg : PyVal) (net : Triple → Except HttpErr GeneData)
       (c : LRU GeneData) (a : Nat),
      (∀ s, arg ≠ .str s) → (∀ g, arg ≠ .geneV g) →
      get_model_gene modelId arg net c a = (.error .valueError, c, [], a)) := by
  refine ⟨?_, ?_, ?_, ?_⟩
  · intro arg genes mets net c a hs hr
    cases arg with
    | str s => exact absurd rfl (hs s)
    | reactionV r => exact absurd rfl (hr r)
    | metaboliteV m => rfl
    | geneV g => rfl
    | intV n => rfl
  · intro modelId arg mets genes net c a hs hr
    cases arg with
    | str s => exact absurd rfl (hs s)
    | reactionV r => exact absurd rfl (hr r)
    | metaboliteV m => rfl
    | geneV g => rfl
    | intV n => rfl
  · intro arg net c a hs hm
    cases arg with
    | str s => exact absurd rfl (hs s)
    | metaboliteV m => exact absurd rfl (hm m)
    | reactionV r => rfl
    | geneV g => rfl
    | intV n => rfl
  · intro modelId arg net c a hs hg
    cases arg with
    | str s => exact absurd rfl (hs s)
    | geneV g => exact absurd rfl (hg g)
    | reactionV r => rfl
    | metaboliteV m => rfl
    | intV n => rfl

/-- C8 witness: `get_reaction(42)` (and the integer argument on the other
three accessors) raises the invalid-argument error with an empty network
trace. -/
theorem c8_type_guard_witness :
    get_reaction (.intV 42) [] [] (fun _ => .error ⟨500⟩) ⟨[]⟩ 0 =
      (.error .valueError, ⟨[]⟩, [], 0) ∧
    get_model_reaction "iJO1366" (.intV 42) [] [] (fun _ => .error ⟨500⟩) ⟨[]⟩ 0 =
      (.error .valueError, ⟨[]⟩, [], 0) ∧
    get_metabolite (.intV 42) (fun _ => .error ⟨500⟩) ⟨[]⟩ 0 =
      (.error .valueError, ⟨[]⟩, [], 0) ∧
    get_model_gene "iJO1366" (.intV 42) (fun _ => .error ⟨500⟩) ⟨[]⟩ 0 =
      (.error .valueError, ⟨[]⟩, [], 0) :=
  ⟨c8_type_guard.1 (.intV 42) [] [] _ _ 0 (fun _ h => nomatch h) (fun _ h => nomatch h),
   c8_type_guard.2.1 "iJO1366" (.intV 42) [] [] _ _ 0 (fun _ h => nomatch h)
     (fun _ h => nomatch h),
   c8_type_guard.2.2.1 (.intV 42) _ _ 0 (fun _ h => nomatch h) (fun _ h => nomatch h),
   c8_type_guard.2.2.2 "iJO1366" (.intV 42) _ _ 0 (fun _ h => nomatch h)
     (fun _ h => nomatch h)⟩

/-- C7: in `get_metabolite`, when the fetch of the derived universal
identifier fails with a transport error of status 404 (and neither triple is
memoized), the literal input identifier is retried exactly once: the network
trace is precisely the universal triple followed by the literal triple (no
third attempt), a successful retry builds the result from the literal
identifier's response, and a failed retry surfaces that error. -/
theorem c7_notfound_retry :
    ∀ (mid : String) (net : Triple → Except HttpErr MetaboliteData)
      (c : LRU MetaboliteData) (a : Nat) (e : HttpErr),
      lruLookup c ("metabolites", some (derive_universal_id mid), none) = none →
      lruLookup c ("metabolites", some mid, none) = none →
      net ("metabolites", some (derive_universal_id mid), none) = .error e →
      e.status = 404 →
      (∀ d, net ("metabolites", some mid, none) = .ok d →
        get_metabolite (.str mid) net c a =
          (.ok (buildMetaboliteBase mid d a,
              (speciesFold (buildMetaboliteBase mid d a) d.compartmentsInModels []
                (a + 1)).1),
            lruInsert c ("metabolites", some mid, none) d,
            [("metabolites", some (derive_universal_id mid), none),
             ("metabolites", some mid, none)],
            (speciesFold (buildMetaboliteBase mid d a) d.compartmentsInModels []
              (a + 1)).2)) ∧
      (∀ e2, net ("metabolites", some mid, none) = .error e2 →
        get_metabolite (.str mid) net c a =
          (.error (.httpError e2.status), c,
            [("metabolites", some (derive_universal_id mid), none),
             ("metabolites", some mid, none)], a)) := by
  intro mid net c a e h1 h2 hu _hs
  constructor
  · intro d hd
    simp only [get_metabolite, cachedGet, h1, h2, hu, hd, List.singleton_append]
  · intro e2 he2
    simp only [get_metabolite, cachedGet, h1, h2, hu, he2, List.singleton_append]

/-- A metabolite response document used by the C7 witness. -/
def c7_doc : MetaboliteData :=
  ⟨"ATP C10H12N5O13P3", [-4], ["C10H12N5O13P3"], ["kegg"], [⟨"c", "iJO1366"⟩]⟩

/-- A network oracle for the C7 witness: 404 on the derived universal
identifier `atp`, success on the literal identifier `atp_c`. -/
def c7_net : Triple → Except HttpErr MetaboliteData :=
  fun t => if t = ("metabolites", some "atp", none) then .error ⟨404⟩ else .ok c7_doc

/-- C7 witness: a concrete run with an empty cache in which fetching `atp`
(derived from `atp_c`) fails with 404 and the literal `atp_c` succeeds; the
call returns the result built from the literal response after exactly the two
network attempts. -/
theorem c7_notfound_retry_witness :
    lruLookup (⟨[]⟩ : LRU MetaboliteData)
      ("metabolites", some (derive_universal_id "atp_c"), none) = none ∧
    lruLookup (⟨[]⟩ : LRU MetaboliteData) ("metabolites", some "atp_c", none) = none ∧
    c7_net ("metabolites", some (derive_universal_id "atp_c"), none) = .error ⟨404⟩ ∧
    (⟨404⟩ : HttpErr).status = 404 ∧
    c7_net ("metabolites", some "atp_c", none) = .ok c7_doc ∧
    get_metabolite (.str "atp_c") c7_net ⟨[]⟩ 0 =
      (.ok (buildMetaboliteBase "atp_c" c7_doc 0,
          (speciesFold (buildMetaboliteBase "atp_c" c7_doc 0)
            c7_doc.compartmentsInModels [] 1).1),
        lruInsert ⟨[]⟩ ("metabolites", some "atp_c", none) c7_doc,
        [("metabolites", some (derive_universal_id "atp_c"), none),
         ("metabolites", some "atp_c", none)],
        (speciesFold (buildMetaboliteBase "atp_c" c7_doc 0)
          c7_doc.compartmentsInModels [] 1).2) :=
  ⟨by decide, by decide, by decide, by decide, by decide,
   (c7_notfound_retry "atp_c" c7_net ⟨[]⟩ 0 ⟨404⟩ (by decide) (by decide) (by decide)
      (by decide)).1 c7_doc (by decide)⟩

/-- A lowercase ASCII letter is not an underscore. -/
theorem isLower_ne_underscore {c : Char} (h : c.isLower = true) : c ≠ '_' := by
  intro heq
  rw [heq] at h
  exact absurd h (by decide)

/-- A lowercase ASCII letter is not a newline. -/
theorem isLower_ne_newline {c : Char} (h : c.isLower = true) : c ≠ '\n' := by
  intro heq
  rw [heq] at h
  exact absurd h (by decide)

/-- C5 (amended): the universal identifier `get_metabolite` derives strips a
trailing suffix of an underscore followed by exactly ONE lowercase letter
(two-letter compartment suffixes are NOT stripped); an input with no such
suffix is used unmodified; `atp_c` resolves to `atp` and `atp` to itself. -/
theorem c5_suffix_stripping :
    (∀ (stem : List Char) (c : Char), stem ≠ [] → c.isLower = true → '\n' ∉ stem →
      derive_universal_id (String.mk (stem ++ ['_', c])) = String.mk stem) ∧
    (∀ (stem : List Char) (c₁ c₂ : Char), c₁.isLower = true → c₂.isLower = true →
      derive_universal_id (String.mk (stem ++ ['_', c₁, c₂])) =
        String.mk (stem ++ ['_', c₁, c₂])) ∧
    derive_universal_id "atp_c" = "atp" ∧
    derive_universal_id "atp" = "atp" := by
  refine ⟨?_, ?_, by decide, by decide⟩
  · intro stem c hne hlow hnl
    have hlast : (stem ++ ['_', c]).getLast? = some c := by
      rw [show stem ++ ['_', c] = (stem ++ ['_']) ++ [c] by simp]
      exact List.getLast?_concat _
    have hcn : ¬ ((stem ++ ['_', c]).getLast? = some '\n') := by
      rw [hlast]
      intro h
      exact isLower_ne_newline hlow (Option.some.injEq _ _ ▸ h)
    have hrev : (stem ++ ['_', c]).reverse = c :: '_' :: stem.reverse := by
      simp [List.reverse_append]
    simp only [derive_universal_id, String.data]
    rw [if_neg hcn]
    simp only [matchStem, hrev]
    rw [if_pos ⟨by decide, hlow, by simpa using hne, by simpa using hnl⟩]
    simp
  · intro stem c₁ c₂ h1 h2
    have hlast : (stem ++ ['_', c₁, c₂]).getLast? = some c₂ := by
      rw [show stem ++ ['_', c₁, c₂] = (stem ++ ['_', c₁]) ++ [c₂] by simp]
      exact List.getLast?_concat _
    have hcn : ¬ ((stem ++ ['_', c₁, c₂]).getLast? = some '\n') := by
      rw [hlast]
      intro h
      exact isLower_ne_newline h2 (Option.some.injEq _ _ ▸ h)
    have hrev : (stem ++ ['_', c₁, c₂]).reverse = c₂ :: c₁ :: ('_' :: stem.reverse) := by
      simp [List.reverse_append]
    simp only [derive_universal_id, String.data]
    rw [if_neg hcn]
    simp only [matchStem, hrev]
    rw [if_neg (by
      intro h
      exact isLower_ne_underscore h1 h.1)]

/-- C5 witness: the one-letter rule at `atp` + `_c` and the two-letter
non-rule at `atp` + `_pp`, with all side conditions discharged concretely. -/
theorem c5_suffix_stripping_witness :
    (['a', 't', 'p'] : List Char) ≠ [] ∧ ('c').isLower = true ∧
      '\n' ∉ (['a', 't', 'p'] : List Char) ∧
      derive_universal_id (String.mk (['a', 't', 'p'] ++ ['_', 'c'])) =
        String.mk ['a', 't', 'p'] ∧
    ('p').isLower = true ∧
      derive_universal_id (String.mk (['a', 't', 'p'] ++ ['_', 'p', 'p'])) =
        String.mk (['a', 't', 'p'] ++ ['_', 'p', 'p']) :=
  ⟨by decide, by decide, by decide,
   c5_suffix_stripping.1 ['a', 't', 'p'] 'c' (by decide) (by decide) (by decide),
   by decide,
   c5_suffix_stripping.2.1 ['a', 't', 'p'] 'p' 'p' (by decide) (by decide)⟩

/-- With a non-falsy caller-supplied cache the code's resolution step equals
the claim's resolution step: the only difference between the two is which
dict step (b) reads, and for `metsEmpty = false` both read the
caller-supplied cache. -/
theorem resolveMetabolite_false (mets lmets : MDict) (a : Nat) (mr : MetRecord) :
    resolveMetabolite false mets lmets a mr = claimResolveMetabolite mets lmets a mr := by
  simp [resolveMetabolite, claimResolveMetabolite]

/-- C2 (amended): whenever the caller-supplied metabolite cache is non-empty
(not falsy), `_build_reaction` resolves every metabolite entry in exactly the
claimed priority order — (a) local cache by compartmental id, (b)
caller-supplied cache by universal id with clone/reassign/insert, (c) fresh
construction with insert: the code's metabolite loop coincides with the loop
written from the claim's words.  (When the caller-supplied cache is empty or
absent, `metabolites = metabolites or _metabolites` makes step (b) read the
local cache instead — the counterexample.) -/
theorem c2_resolution_order :
    ∀ (mets lmets : MDict) (ml : List MetRecord) (st : List (Metabolite × Int)) (a : Nat),
      mets ≠ [] →
      stoichPhase mets.isEmpty mets ml st lmets a = claimStoichPhase mets ml st lmets a := by
  intro mets lmets ml st a hne
  have hf : mets.isEmpty = false := by
    cases mets with
    | nil => exact absurd rfl hne
    | cons e es => rfl
  rw [hf]
  induction ml generalizing st lmets a with
  | nil => rfl
  | cons mr rest ih =>
    show stoichPhase false mets (mr :: rest) st lmets a = _
    simp only [stoichPhase, claimStoichPhase, resolveMetabolite_false]
    exact ih _ _ _

/-- C2 witness: a concrete run with a non-empty caller-supplied cache
containing universal metabolite `x`; entry resolution follows the claimed
order (here branch (b): the cached value is cloned and re-identified). -/
theorem c2_resolution_order_witness :
    ([(("x" : String), (⟨7, "x", "nx", none, none, none, none, none, none, none⟩ :
        Metabolite))] : MDict) ≠ [] ∧
    stoichPhase
        ([(("x" : String), (⟨7, "x", "nx", none, none, none, none, none, none, none⟩ :
          Metabolite))] : MDict).isEmpty
        [("x", ⟨7, "x", "nx", none, none, none, none, none, none, none⟩)]
        [⟨"x", "n1", "c", 1⟩] [] [] 0 =
      claimStoichPhase [("x", ⟨7, "x", "nx", none, none, none, none, none, none, none⟩)]
        [⟨"x", "n1", "c", 1⟩] [] [] 0 :=
  ⟨by decide,
   c2_resolution_order [("x", ⟨7, "x", "nx", none, none, none, none, none, none, none⟩)]
     [] [⟨"x", "n1", "c", 1⟩] [] 0 (by decide)⟩

/-- `list_model_reactions` and `list_reactions` run the identical fold. -/
theorem list_model_reactions_eq :
    ∀ (rs : List ListRecord) (acc : List Reaction),
      list_model_reactions rs acc = list_reactions rs acc := by
  intro rs
  induction rs with
  | nil => intro acc; rfl
  | cons rd rest ih =>
    intro acc
    simp only [list_model_reactions, list_reactions]
    by_cases h : rd.biggId ∈ acc.map Reaction.id
    · rw [if_pos h, if_pos h, ih]
    · rw [if_neg h, if_neg h, ih]

/-- The (id, name) projection of the `list_reactions` fold is the
first-occurrence filter of the record projections. -/
theorem list_reactions_proj :
    ∀ (rs : List ListRecord) (acc : List Reaction),
      (list_reactions rs acc).map (fun r => (r.id, r.name)) =
        acc.map (fun r => (r.id, r.name)) ++
          firstOccBy Prod.fst (rs.map (fun rd => (rd.biggId, rd.name)))
            (acc.map Reaction.id) := by
  intro rs
  induction rs with
  | nil => intro acc; simp [list_reactions, firstOccBy]
  | cons rd rest ih =>
    intro acc
    simp only [list_reactions, List.map_cons, firstOccBy]
    by_cases h : rd.biggId ∈ acc.map Reaction.id
    · rw [if_pos h, if_pos h]
      exact ih acc
    · rw [if_neg h, if_neg h]
      rw [ih (acc ++ [reactionStub rd.biggId rd.name])]
      simp [reactionStub, List.map_append]

/-- The (id, name) projection of the `list_model_metabolites` fold is the
first-occurrence filter of the record projections, keyed by the derived
compartmental identifier. -/
theorem list_model_metabolites_proj :
    ∀ (rs : List ModelMetListRecord) (acc : List Metabolite) (a : Nat),
      (list_model_metabolites rs acc a).map (fun m => (m.id, m.name)) =
        acc.map (fun m => (m.id, m.name)) ++
          firstOccBy Prod.fst
            (rs.map (fun rd => (rd.biggId ++ "_" ++ rd.compartmentBiggId, rd.name)))
            (acc.map Metabolite.id) := by
  intro rs
  induction rs with
  | nil => intro acc a; simp [list_model_metabolites, firstOccBy]
  | cons rd rest ih =>
    intro acc a
    simp only [list_model_metabolites, List.map_cons, firstOccBy]
    by_cases h : rd.biggId ++ "_" ++ rd.compartmentBiggId ∈ acc.map Metabolite.id
    · rw [if_pos h, if_pos h]
      exact ih acc a
    · rw [if_neg h, if_neg h]
      rw [ih _ (a + 1)]
      simp [List.map_append]

/-- The keys of a first-occurrence filter are pairwise distinct and disjoint
from the already-seen keys. -/
theorem firstOccBy_nodup {α : Type} (key : α → String) :
    ∀ (l : List α) (seen : List String),
      ((firstOccBy key l seen).map key).Nodup ∧
        ∀ k ∈ (firstOccBy key l seen).map key, k ∉ seen := by
  intro l
  induction l with
  | nil => intro seen; exact ⟨List.nodup_nil, by simp [firstOccBy]⟩
  | cons x rest ih =>
    intro seen
    by_cases h : key x ∈ seen
    · simpa [firstOccBy, h] using ih seen
    · have hrec := ih (seen ++ [key x])
      constructor
      · simp only [firstOccBy, if_neg h, List.map_cons, List.nodup_cons]
        refine ⟨?_, hrec.1⟩
        intro hmem
        have hni := hrec.2 _ hmem
        simp at hni
      · intro k hk
        simp only [firstOccBy, if_neg h, List.map_cons, List.mem_cons] at hk
        cases hk with
        | inl he => rw [he]; exact h
        | inr hm =>
          intro hkin
          exact hrec.2 _ hm (by simp [hkin])

/-- A successful `list_metabolites` (no duplicate-id `ValueError` from cobra's
`DictList.append`) returns pairwise-distinct identifiers. -/
theorem list_metabolites_ok_nodup :
    ∀ (rs : List ListRecord) (acc : List Metabolite) (a : Nat) (l : List Metabolite),
      list_metabolites rs acc a = .ok l → (acc.map Metabolite.id).Nodup →
      (l.map Metabolite.id).Nodup := by
  intro rs
  induction rs with
  | nil =>
    intro acc a l h hn
    simp only [list_metabolites] at h
    cases h
    exact hn
  | cons rd rest ih =>
    intro acc a l h hn
    simp only [list_metabolites, dictListAppend] at h
    by_cases hm :
        (⟨a, rd.biggId, rd.name, none, none, none, none, none, none, none⟩ :
          Metabolite).id ∈ acc.map Metabolite.id
    · rw [if_pos hm] at h
      cases h
    · rw [if_neg hm] at h
      refine ih _ _ _ h ?_
      rw [List.map_append]
      simp only [List.map_cons, List.map_nil]
      rw [List.nodup_append]
      exact ⟨hn, List.nodup_singleton _, by
        intro k hk hk2
        simp at hk2
        rw [hk2] at hk
        exact hm hk⟩

/-- `list_model_genes` builds exactly one gene per record, duplicates
included. -/
theorem list_model_genes_ids :
    ∀ (rs : List GeneListRecord) (a : Nat),
      (list_model_genes rs a).map Gene.id = rs.map GeneListRecord.biggId := by
  intro rs
  induction rs with
  | nil => intro a; rfl
  | cons rd rest ih =>
    intro a
    simp only [list_model_genes, List.map_cons]
    rw [ih (a + 1)]

/-- Identifier projection through the (id, name) pair projection. -/
theorem map_reaction_id_eq (l : List Reaction) :
    l.map Reaction.id = (l.map (fun r => (r.id, r.name))).map Prod.fst := by
  simp [List.map_map, Function.comp]

/-- Identifier projection through the (id, name) pair projection. -/
theorem map_metabolite_id_eq (l : List Metabolite) :
    l.map Metabolite.id = (l.map (fun m => (m.id, m.name))).map Prod.fst := by
  simp [List.map_map, Function.comp]

/-- C4 (amended): `list_reactions`, `list_model_reactions` and
`list_model_metabolites` skip records whose derived identifier already
appeared (first occurrence wins): their (id, name) output is exactly the
first-occurrence filter of the input records, and their identifiers are
pairwise distinct.  `list_metabolites` has NO skip guard — a duplicate record
makes cobra's `DictList.append` raise `ValueError`, so whenever it does
return, its identifiers are pairwise distinct.  `list_model_genes` has no
duplicate handling at all: it returns one gene per record, duplicate
identifiers included. -/
theorem c4_listing_dedup :
    (∀ (rs : List ListRecord),
      (list_reactions rs []).map (fun r => (r.id, r.name)) =
        firstOccBy Prod.fst (rs.map (fun rd => (rd.biggId, rd.name))) []) ∧
    (∀ (rs : List ListRecord),
      (list_model_reactions rs []).map (fun r => (r.id, r.name)) =
        firstOccBy Prod.fst (rs.map (fun rd => (rd.biggId, rd.name))) []) ∧
    (∀ (rs : List ModelMetListRecord) (a : Nat),
      (list_model_metabolites rs [] a).map (fun m => (m.id, m.name)) =
        firstOccBy Prod.fst
          (rs.map (fun rd => (rd.biggId ++ "_" ++ rd.compartmentBiggId, rd.name))) []) ∧
    (∀ (rs : List ListRecord), ((list_reactions rs []).map Reaction.id).Nodup) ∧
    (∀ (rs : List ListRecord), ((list_model_reactions rs []).map Reaction.id).Nodup) ∧
    (∀ (rs : List ModelMetListRecord) (a : Nat),
      ((list_model_metabolites rs [] a).map Metabolite.id).Nodup) ∧
    (∀ (rs : List ListRecord) (l : List Metabolite),
      list_metabolites rs [] 0 = .ok l → (l.map Metabolite.id).Nodup) ∧
    (∀ (rs : List GeneListRecord) (a : Nat),
      (list_model_genes rs a).map Gene.id = rs.map GeneListRecord.biggId) := by
  have hproj : ∀ (rs : List ListRecord),
      (list_reactions rs []).map (fun r => (r.id, r.name)) =
        firstOccBy Prod.fst (rs.map (fun rd => (rd.biggId, rd.name))) [] := by
    intro rs
    have h := list_reactions_proj rs []
    simpa using h
  have hprojm : ∀ (rs : List ModelMetListRecord) (a : Nat),
      (list_model_metabolites rs [] a).map (fun m => (m.id, m.name)) =
        firstOccBy Prod.fst
          (rs.map (fun rd => (rd.biggId ++ "_" ++ rd.compartmentBiggId, rd.name))) [] := by
    intro rs a
    have h := list_model_metabolites_proj rs [] a
    simpa using h
  refine ⟨hproj, ?_, hprojm, ?_, ?_, ?_, ?_, ?_⟩
  · intro rs
    rw [list_model_reactions_eq]
    exact hproj rs
  · intro rs
    rw [map_reaction_id_eq, hproj rs]
    exact (firstOccBy_nodup Prod.fst _ []).1
  · intro rs
    rw [list_model_reactions_eq, map_reaction_id_eq, hproj rs]
    exact (firstOccBy_nodup Prod.fst _ []).1
  · intro rs a
    rw [map_metabolite_id_eq, hprojm rs a]
    exact (firstOccBy_nodup Prod.fst _ []).1
  · intro rs l h
    exact list_metabolites_ok_nodup rs [] 0 l h (by simp)
  · exact list_model_genes_ids

/-- C4 witness: concrete runs — a duplicated reaction record is skipped
(first occurrence wins), a successful `list_metabolites` run has distinct
identifiers, and `list_model_genes` maps records one-to-one. -/
theorem c4_listing_dedup_witness :
    (list_reactions [⟨"r1", "a"⟩, ⟨"r1", "b"⟩, ⟨"r2", "c"⟩] []).map
        (fun r => (r.id, r.name)) =
      firstOccBy Prod.fst
        (([⟨"r1", "a"⟩, ⟨"r1", "b"⟩, ⟨"r2", "c"⟩] : List ListRecord).map
          (fun rd => (rd.biggId, rd.name))) [] ∧
    list_metabolites [⟨"m1", "n"⟩] [] 0 =
      .ok [⟨0, "m1", "n", none, none, none, none, none, none, none⟩] ∧
    (([⟨0, "m1", "n", none, none, none, none, none, none, none⟩] :
        List Metabolite).map Metabolite.id).Nodup ∧
    (list_model_genes [⟨"g", "n", "o"⟩] 5).map Gene.id =
      ([⟨"g", "n", "o"⟩] : List GeneListRecord).map GeneListRecord.biggId :=
  ⟨c4_listing_dedup.1 [⟨"r1", "a"⟩, ⟨"r1", "b"⟩, ⟨"r2", "c"⟩],
   by decide,
   c4_listing_dedup.2.2.2.2.2.2.1 [⟨"m1", "n"⟩]
     [⟨0, "m1", "n", none, none, none, none, none, none, none⟩] (by decide),
   c4_listing_dedup.2.2.2.2.2.2.2 [⟨"g", "n", "o"⟩] 5⟩

/-- A key is found iff it occurs among the entry keys (exact equality). -/
theorem assocFind_eq_none_iff {V : Type} :
    ∀ (es : List (Triple × V)) (t : Triple),
      assocFind es t = none ↔ t ∉ es.map Prod.fst := by
  intro es t
  induction es with
  | nil => simp [assocFind]
  | cons e rest ih =>
    simp only [assocFind, List.map_cons, List.mem_cons]
    by_cases h : e.1 = t
    · rw [if_pos h]
      simp [h]
    · rw [if_neg h]
      rw [ih]
      constructor
      · intro hn hc
        cases hc with
        | inl he => exact h he.symm
        | inr hm => exact hn hm
      · intro hn hm
        exact hn (Or.inr hm)

/-- Cache lookup misses exactly the triples absent from the key list. -/
theorem lruLookup_none_iff {V : Type} (c : LRU V) (t : Triple) :
    lruLookup c t = none ↔ t ∉ lruKeys c := by
  rw [lruLookup, lruKeys, ← assocFind_eq_none_iff]
  cases assocFind c.entries t with
  | none => simp
  | some e => simp

/-- Removing a found key shortens the entry list by one. -/
theorem eraseKey_length {V : Type} :
    ∀ (es : List (Triple × V)) (t : Triple) (e : Triple × V),
      assocFind es t = some e → es.length = (eraseKey es t).length + 1 := by
  intro es
  induction es with
  | nil => intro t e h; simp [assocFind] at h
  | cons e0 rest ih =>
    intro t e h
    simp only [assocFind] at h
    simp only [eraseKey]
    by_cases h0 : e0.1 = t
    · rw [if_pos h0]
      simp
    · rw [if_neg h0] at h ⊢
      simp only [List.length_cons]
      rw [ih t e h]

/-- A recency touch does not change the number of cached entries. -/
theorem lruTouch_length {V : Type} (c : LRU V) (t : Triple) :
    (lruTouch c t).entries.length = c.entries.length := by
  rw [lruTouch]
  cases hf : assocFind c.entries t with
  | none => rfl
  | some e =>
    simp only [List.length_cons]
    rw [eraseKey_length c.entries t e hf]

/-- C9: behavior of the LRU-cached resource fetcher `_get`.  The cache bound
is 524 entries; a memoized triple is returned with zero network calls (and
promoted to most recently used); a non-memoized triple costs exactly one
network round trip and a successful response is memoized, so an immediately
repeated fetch performs no network call; the entry count never exceeds the
bound; keying is exact triple equality; and at full capacity a miss evicts
precisely the least recently used entry, whose subsequent fetch performs a
new network call. -/
theorem c9_lru_cache :
    LRU_CACHE_MAXSIZE = 524 ∧
    (∀ (V : Type) (net : Triple → Except HttpErr V) (c : LRU V) (t : Triple) (v : V),
      lruLookup c t = some v → cachedGet net c t = (.ok v, lruTouch c t, [])) ∧
    (∀ (V : Type) (net : Triple → Except HttpErr V) (c : LRU V) (t : Triple),
      lruLookup c t = none → (cachedGet net c t).2.2 = [t]) ∧
    (∀ (V : Type) (net : Triple → Except HttpErr V) (c : LRU V) (t : Triple) (v : V),
      lruLookup c t = none → net t = .ok v →
        lruLookup (cachedGet net c t).2.1 t = some v ∧
        (cachedGet net (cachedGet net c t).2.1 t).2.2 = []) ∧
    (∀ (V : Type) (net : Triple → Except HttpErr V) (c : LRU V) (t : Triple),
      c.entries.length ≤ LRU_CACHE_MAXSIZE →
        (cachedGet net c t).2.1.entries.length ≤ LRU_CACHE_MAXSIZE) ∧
    (∀ (V : Type) (c : LRU V) (t : Triple), lruLookup c t = none ↔ t ∉ lruKeys c) ∧
    (∀ (V : Type) (net : Triple → Except HttpErr V) (c : LRU V) (t : Triple) (v : V)
       (es : List (Triple × V)) (el : Triple × V),
      c.entries = es ++ [el] → (lruKeys c).Nodup →
      c.entries.length = LRU_CACHE_MAXSIZE → lruLookup c t = none → net t = .ok v →
        (cachedGet net c t).2.1.entries = (t, v) :: es ∧
        lruLookup (cachedGet net c t).2.1 el.1 = none ∧
        (cachedGet net (cachedGet net c t).2.1 el.1).2.2 = [el.1]) := by
  have hins : ∀ (V : Type) (c : LRU V) (t : Triple) (v : V),
      lruLookup (lruInsert c t v) t = some v := by
    intro V c t v
    rw [lruInsert, lruLookup]
    by_cases hlen : LRU_CACHE_MAXSIZE < ((t, v) :: c.entries).length
    · rw [if_pos hlen]
      cases hc : c.entries with
      | nil =>
        rw [hc] at hlen
        simp [LRU_CACHE_MAXSIZE] at hlen
      | cons e2 rest2 =>
        rw [List.dropLast_cons₂]
        simp [assocFind]
    · rw [if_neg hlen]
      simp [assocFind]
  refine ⟨rfl, ?_, ?_, ?_, ?_, ?_, ?_⟩
  · intro V net c t v h
    simp only [cachedGet, h]
  · intro V net c t h
    simp only [cachedGet, h]
    cases net t <;> rfl
  · intro V net c t v h hnet
    simp only [cachedGet, h, hnet]
    constructor
    · exact hins V c t v
    · simp only [cachedGet, hins V c t v]
  · intro V net c t hle
    simp only [cachedGet]
    cases hl : lruLookup c t with
    | some v =>
      simpa [lruTouch_length] using hle
    | none =>
      cases hnet : net t with
      | ok v =>
        simp only [lruInsert]
        by_cases hlen : LRU_CACHE_MAXSIZE < ((t, v) :: c.entries).length
        · rw [if_pos hlen]
          simp only [List.length_dropLast, List.length_cons]
          omega
        · rw [if_neg hlen]
          simp only [List.length_cons] at hlen ⊢
          omega
      | error e => exact hle
  · intro V c t
    exact lruLookup_none_iff c t
  · intro V net c t v es el hsplit hnodup hfull hmiss hnet
    have hmiss' : t ∉ lruKeys c := (lruLookup_none_iff c t).mp hmiss
    have hkey_ne : el.1 ≠ t := by
      intro heq
      apply hmiss'
      simp only [lruKeys, hsplit, List.map_append, List.mem_append]
      right
      simp [heq]
    have hkey_not_es : el.1 ∉ es.map Prod.fst := by
      simp only [lruKeys, hsplit, List.map_append] at hnodup
      intro hm
      rw [List.nodup_append] at hnodup
      exact hnodup.2.2 hm (by simp)
    have hentries : (cachedGet net c t).2.1.entries = (t, v) :: es := by
      simp only [cachedGet, hmiss, hnet, lruInsert]
      rw [if_pos (by rw [hsplit] at hfull; simp only [List.length_cons, hsplit, hfull]; decide)]
      rw [hsplit, show ((t, v) :: (es ++ [el])) = ((t, v) :: es) ++ [el] by simp,
        List.dropLast_concat]
    have hmiss2 : lruLookup (cachedGet net c t).2.1 el.1 = none := by
      rw [lruLookup_none_iff]
      simp only [lruKeys, hentries, List.map_cons, List.mem_cons]
      intro hc
      cases hc with
      | inl he => exact hkey_ne he
      | inr hm => exact hkey_not_es hm
    refine ⟨hentries, hmiss2, ?_⟩
    generalize hc2 : (cachedGet net c t).2.1 = c2 at hmiss2 ⊢
    simp only [cachedGet, hmiss2]
    cases net el.1 <;> rfl

/-- Key generator for the C9 witness cache. -/
def c9_key (i : Nat) : Triple :=
  ("r", some (String.mk (List.replicate i 'a')), none)

/-- Distinct indices give distinct witness cache keys. -/
theorem c9_key_injective : Function.Injective c9_key := by
  intro i j h
  simp only [c9_key, Prod.mk.injEq, Option.some.injEq] at h
  have hd := congrArg String.data h.2.1
  simpa using congrArg List.length hd

/-- A cache filled to capacity for the C9 witness (524 entries, most recently
used first). -/
def c9_cache : LRU Nat := ⟨(List.range 524).map (fun i => (c9_key i, 0))⟩

/-- All but the least recently used entry of the witness cache. -/
def c9_es : List (Triple × Nat) := (List.range 523).map (fun i => (c9_key i, 0))

set_option maxRecDepth 8000

set_option maxHeartbeats 2000000

/-- C9 witness: fetching a fresh triple against the full witness cache evicts
exactly the least recently used entry (`c9_key 523`), caches the new triple,
and a subsequent fetch of the evicted triple performs a network call. -/
theorem c9_lru_cache_witness :
    c9_cache.entries = c9_es ++ [(c9_key 523, 0)] ∧
    (lruKeys c9_cache).Nodup ∧
    c9_cache.entries.length = LRU_CACHE_MAXSIZE ∧
    lruLookup c9_cache ("x", none, none) = none ∧
    (cachedGet (fun _ => .ok 7) c9_cache ("x", none, none)).2.1.entries =
      ((("x", none, none) : Triple), (7 : Nat)) :: c9_es ∧
    lruLookup (cachedGet (fun _ => .ok 7) c9_cache ("x", none, none)).2.1
      (c9_key 523) = none ∧
    (cachedGet (fun _ => .ok (7 : Nat))
        (cachedGet (fun _ => .ok 7) c9_cache ("x", none, none)).2.1
        (c9_key 523)).2.2 = [c9_key 523] := by
  have h1 : c9_cache.entries = c9_es ++ [(c9_key 523, 0)] := by
    simp only [c9_cache, c9_es]
    rw [show (524 : Nat) = 523 + 1 from rfl, List.range_succ, List.map_append]
    rfl
  have h2 : (lruKeys c9_cache).Nodup := by
    simp only [lruKeys, c9_cache, List.map_map]
    exact List.Nodup.map (fun i j h => c9_key_injective h) (List.nodup_range 524)
  have h3 : c9_cache.entries.length = LRU_CACHE_MAXSIZE := by
    simp [c9_cache, LRU_CACHE_MAXSIZE]
  have h4 : lruLookup c9_cache ("x", none, none) = none := by
    rw [lruLookup_none_iff]
    simp only [lruKeys, c9_cache, List.map_map]
    intro hm
    simp only [List.mem_map, List.mem_range, Function.comp, c9_key,
      Prod.mk.injEq] at hm
    obtain ⟨i, _, hi⟩ := hm
    exact absurd hi.1 (by decide)
  have hc := c9_lru_cache.2.2.2.2.2.2 Nat (fun _ => .ok 7) c9_cache
    ("x", none, none) 7 c9_es (c9_key 523, 0) h1 h2 h3 h4 rfl
  exact ⟨h1, h2, h3, h4, hc.1, hc.2.1, hc.2.2⟩

/-- Lookup across an appended dict segment: the left segment wins. -/
theorem dlookup_append {α : Type} :
    ∀ (l1 l2 : List (String × α)) (k : String),
      dlookup (l1 ++ l2) k =
        match dlookup l1 k with
        | some v => some v
        | none => dlookup l2 k := by
  intro l1 l2 k
  induction l1 with
  | nil => simp [dlookup]
  | cons e es ih =>
    simp only [List.cons_append, dlookup]
    by_cases h : e.1 = k
    · rw [if_pos h, if_pos h]
    · rw [if_neg h, if_neg h]
      exact ih

/-- A value found after an insertion was either already present or is the
inserted value. -/
theorem dlookup_dinsert {α : Type} (d : List (String × α)) (k0 k : String) (v w : α)
    (h : dlookup (dinsert d k0 v) k = some w) :
    dlookup d k = some w ∨ (k = k0 ∧ w = v ∧ dlookup d k = none) := by
  rw [dinsert, dlookup_append] at h
  cases hd : dlookup d k with
  | some u =>
    rw [hd] at h
    exact Or.inl h
  | none =>
    rw [hd] at h
    simp only [dlookup] at h
    by_cases hk : k0 = k
    · rw [if_pos hk] at h
      cases h
      exact Or.inr ⟨hk.symm, rfl, rfl⟩
    · rw [if_neg hk] at h
      cases h

/-- `resolveGene` either leaves the local cache and allocator unchanged, or
inserts one freshly allocated gene and advances the allocator. -/
theorem resolveGene_cases (genesEmpty : Bool) (genes lg : GDict) (a : Nat)
    (gr : GeneRecord) :
    ((resolveGene genesEmpty genes lg a gr).2.1 = lg ∧
     (resolveGene genesEmpty genes lg a gr).2.2 = a) ∨
    ((resolveGene genesEmpty genes lg a gr).2.1 =
        dinsert lg gr.biggId ⟨a, gr.biggId, gr.name, none, none, none⟩ ∧
     (resolveGene genesEmpty genes lg a gr).2.2 = a + 1) := by
  simp only [resolveGene]
  split
  · exact Or.inl ⟨rfl, rfl⟩
  · split
    · exact Or.inl ⟨rfl, rfl⟩
    · exact Or.inr ⟨rfl, rfl⟩

/-- `resolveMetabolite` either leaves the local cache and allocator
unchanged, or inserts one value whose allocation is the current counter and
advances the allocator. -/
theorem resolveMetabolite_cases (metsEmpty : Bool) (mets lm : MDict) (a : Nat)
    (mr : MetRecord) :
    ((resolveMetabolite metsEmpty mets lm a mr).2.1 = lm ∧
     (resolveMetabolite metsEmpty mets lm a mr).2.2 = a) ∨
    (∃ m', m'.alloc = a ∧
      (resolveMetabolite metsEmpty mets lm a mr).2.1 =
        dinsert lm (compartmentalId mr) m' ∧
      (resolveMetabolite metsEmpty mets lm a mr).2.2 = a + 1) := by
  simp only [resolveMetabolite]
  split
  · exact Or.inl ⟨rfl, rfl⟩
  · split
    · exact Or.inr ⟨_, rfl, rfl, rfl⟩
    · exact Or.inr ⟨_, rfl, rfl, rfl⟩

/-- The gene loop only ever extends the local gene cache with freshly
allocated genes, and never decreases the allocator. -/
theorem genePhase_local (genesEmpty : Bool) (genes : GDict) :
    ∀ (glist : List GeneRecord) (gset : List Gene) (rc : Reaction) (lg : GDict) (a : Nat),
      (∀ k g, dlookup (genePhase genesEmpty genes glist gset rc lg a).2.1 k = some g →
        dlookup lg k = some g ∨ a ≤ g.alloc) ∧
      a ≤ (genePhase genesEmpty genes glist gset rc lg a).2.2 := by
  intro glist
  induction glist with
  | nil =>
    intro gset rc lg a
    exact ⟨fun k g hk => Or.inl hk, Nat.le_refl a⟩
  | cons gr rest ih =>
    intro gset rc lg a
    simp only [genePhase]
    rcases resolveGene_cases genesEmpty genes lg a gr with ⟨h1, h2⟩ | ⟨h1, h2⟩
    · rw [h1, h2]
      exact ih _ _ lg a
    · rw [h1, h2]
      have hrec := ih
        (if (resolveGene genesEmpty genes lg a gr).1 ∈ gset then gset
          else gset ++ [(resolveGene genesEmpty genes lg a gr).1])
        { rc with genes :=
          (if (resolveGene genesEmpty genes lg a gr).1 ∈ gset then gset
            else gset ++ [(resolveGene genesEmpty genes lg a gr).1]) }
        (dinsert lg gr.biggId ⟨a, gr.biggId, gr.name, none, none, none⟩) (a + 1)
      refine ⟨?_, Nat.le_trans (Nat.le_succ a) hrec.2⟩
      intro k g hk
      rcases hrec.1 k g hk with hh | hh
      · rcases dlookup_dinsert lg gr.biggId k _ g hh with hi | hi
        · exact Or.inl hi
        · rw [hi.2.1]
          exact Or.inr (Nat.le_refl a)
      · exact Or.inr (Nat.le_trans (Nat.le_succ a) hh)

/-- The metabolite loop only ever extends the local metabolite cache with
freshly allocated instances, and never decreases the allocator. -/
theorem stoichPhase_local (metsEmpty : Bool) (mets : MDict) :
    ∀ (ml : List MetRecord) (st : List (Metabolite × Int)) (lm : MDict) (a : Nat),
      (∀ k m, dlookup (stoichPhase metsEmpty mets ml st lm a).2.1 k = some m →
        dlookup lm k = some m ∨ a ≤ m.alloc) ∧
      a ≤ (stoichPhase metsEmpty mets ml st lm a).2.2 := by
  intro ml
  induction ml with
  | nil =>
    intro st lm a
    exact ⟨fun k m hk => Or.inl hk, Nat.le_refl a⟩
  | cons mr rest ih =>
    intro st lm a
    simp only [stoichPhase]
    rcases resolveMetabolite_cases metsEmpty mets lm a mr with ⟨h1, h2⟩ | ⟨m', hm', h1, h2⟩
    · rw [h1, h2]
      exact ih _ lm a
    · rw [h1, h2]
      have hrec := ih
        (supdate st (resolveMetabolite metsEmpty mets lm a mr).1 mr.stoichiometry)
        (dinsert lm (compartmentalId mr) m') (a + 1)
      refine ⟨?_, Nat.le_trans (Nat.le_succ a) hrec.2⟩
      intro k m hk
      rcases hrec.1 k m hk with hh | hh
      · rcases dlookup_dinsert lm (compartmentalId mr) k _ m hh with hi | hi
        · exact Or.inl hi
        · rw [hi.2.1, hm']
          exact Or.inr (Nat.le_refl a)
      · exact Or.inr (Nat.le_trans (Nat.le_succ a) hh)

/-- Deep-copying a stoichiometry never decreases the allocator. -/
theorem deepcopyStoich_alloc_le :
    ∀ (st : List (Metabolite × Int)) (a : Nat), a ≤ (deepcopyStoich st a).2 := by
  intro st
  induction st with
  | nil => intro a; exact Nat.le_refl a
  | cons p rest ih =>
    intro a
    simp only [deepcopyStoich]
    exact Nat.le_trans (Nat.le_succ a) (ih (a + 1))

/-- Deep-copying a gene set never decreases the allocator. -/
theorem deepcopyGenes_alloc_le :
    ∀ (gs : List Gene) (a : Nat), a ≤ (deepcopyGenes gs a).2 := by
  intro gs
  induction gs with
  | nil => intro a; exact Nat.le_refl a
  | cons g rest ih =>
    intro a
    simp only [deepcopyGenes]
    exact Nat.le_trans (Nat.le_succ a) (ih (a + 1))

/-- `reaction.copy()` never decreases the allocator. -/
theorem reactionDeepcopy_alloc_le (r : Reaction) (a : Nat) :
    a ≤ (reactionDeepcopy r a).2 := by
  simp only [reactionDeepcopy]
  exact Nat.le_trans (deepcopyStoich_alloc_le r.stoich a)
    (deepcopyGenes_alloc_le r.genes (deepcopyStoich r.stoich a).2)

/-- Transport of the fresh-entries property through the caller-visibility
adjustment of the falsy defaults. -/
theorem visibleDict_frame {α : Type} (f : α → Nat) (passed now : List (String × α))
    (a a0 : Nat) (ha : a ≤ a0)
    (hnow : ∀ k v, dlookup now k = some v → dlookup passed k = some v ∨ a0 ≤ f v) :
    ∀ k v, dlookup (visibleDict passed now) k = some v →
      dlookup passed k = some v ∨ a ≤ f v := by
  intro k v hk
  rw [visibleDict] at hk
  by_cases hp : passed.isEmpty
  · rw [if_pos hp] at hk
    exact Or.inl hk
  · rw [if_neg hp] at hk
    rcases hnow k v hk with h | h
    · exact Or.inl h
    · exact Or.inr (Nat.le_trans ha h)

/-- Frame property of the assembly body: the caller-supplied caches come back
exactly as passed, and every entry of the local caches after the call is
either a pre-existing entry or a freshly allocated instance. -/
theorem build_reaction_body_frame (cd : CopyRecord) (rc0 : Reaction)
    (genes lgenes : GDict) (mets lmets : MDict) (a0 : Nat) :
    (build_reaction_body cd rc0 genes lgenes mets lmets a0).genesOut = genes ∧
    (build_reaction_body cd rc0 genes lgenes mets lmets a0).metsOut = mets ∧
    (∀ k g, dlookup (build_reaction_body cd rc0 genes lgenes mets lmets a0).lgenesOut k =
        some g → dlookup lgenes k = some g ∨ a0 ≤ g.alloc) ∧
    (∀ k m, dlookup (build_reaction_body cd rc0 genes lgenes mets lmets a0).lmetsOut k =
        some m → dlookup lmets k = some m ∨ a0 ≤ m.alloc) := by
  simp only [build_reaction_body]
  cases hg : cd.genes with
  | some glist =>
    have hgp := genePhase_local genes.isEmpty genes glist [] rc0 lgenes a0
    cases hr : cd.geneReactionRule with
    | none =>
      refine ⟨rfl, rfl, ?_, fun k m hk => Or.inl hk⟩
      exact visibleDict_frame Gene.alloc lgenes _ a0 a0 (Nat.le_refl a0) hgp.1
    | some rule =>
      cases hm : cd.metabolites with
      | some ml =>
        have hsp := stoichPhase_local mets.isEmpty mets ml [] lmets
          (genePhase genes.isEmpty genes glist [] rc0 lgenes a0).2.2
        refine ⟨rfl, rfl, ?_, ?_⟩
        · exact visibleDict_frame Gene.alloc lgenes _ a0 a0 (Nat.le_refl a0) hgp.1
        · exact visibleDict_frame Metabolite.alloc lmets _ a0 _ hgp.2 hsp.1
      | none =>
        refine ⟨rfl, rfl, ?_, ?_⟩
        · exact visibleDict_frame Gene.alloc lgenes _ a0 a0 (Nat.le_refl a0) hgp.1
        · exact visibleDict_frame Metabolite.alloc lmets lmets a0 a0 (Nat.le_refl a0)
            (fun k m hk => Or.inl hk)
  | none =>
    cases hm : cd.metabolites with
    | some ml =>
      have hsp := stoichPhase_local mets.isEmpty mets ml [] lmets a0
      refine ⟨rfl, rfl, ?_, ?_⟩
      · exact visibleDict_frame Gene.alloc lgenes lgenes a0 a0 (Nat.le_refl a0)
          (fun k g hk => Or.inl hk)
      · exact visibleDict_frame Metabolite.alloc lmets _ a0 a0 (Nat.le_refl a0) hsp.1
    | none =>
      refine ⟨rfl, rfl, ?_, ?_⟩
      · exact visibleDict_frame Gene.alloc lgenes lgenes a0 a0 (Nat.le_refl a0)
          (fun k g hk => Or.inl hk)
      · exact visibleDict_frame Metabolite.alloc lmets lmets a0 a0 (Nat.le_refl a0)
          (fun k m hk => Or.inl hk)

/-- C10: `_build_reaction` never inserts into, removes from, or rebinds any
entry of the caller-supplied gene/metabolite caches — they map exactly the
same identifiers to the same values after the call — and every entry of the
local caches after the call is either a pre-existing entry or an instance
freshly allocated during the call (in particular, a metabolite found in the
caller-supplied cache is cloned into a fresh instance before its identifier
and compartment are reassigned, leaving the caller's instance unchanged). -/
theorem c10_caller_cache_frame :
    ∀ (cd : CopyRecord) (r : Reaction) (cn : Int) (genes lgenes : GDict)
      (mets lmets : MDict) (a : Nat),
      (build_reaction cd r cn genes lgenes mets lmets a).genesOut = genes ∧
      (build_reaction cd r cn genes lgenes mets lmets a).metsOut = mets ∧
      (∀ k g, dlookup (build_reaction cd r cn genes lgenes mets lmets a).lgenesOut k =
          some g → dlookup lgenes k = some g ∨ a ≤ g.alloc) ∧
      (∀ k m, dlookup (build_reaction cd r cn genes lgenes mets lmets a).lmetsOut k =
          some m → dlookup lmets k = some m ∨ a ≤ m.alloc) := by
  intro cd r cn genes lgenes mets lmets a
  by_cases hcn : cn > 0
  · cases hk : cd.copyNumber with
    | none =>
      simp only [build_reaction, if_pos hcn, hk]
      exact ⟨trivial, trivial, fun k g hk2 => Or.inl hk2, fun k m hk2 => Or.inl hk2⟩
    | some n =>
      simp only [build_reaction, if_pos hcn, hk]
      have hb := build_reaction_body_frame cd
        { (reactionDeepcopy r a).1 with id := r.id ++ "_" ++ toString n }
        genes lgenes mets lmets (reactionDeepcopy r a).2
      have hmono := reactionDeepcopy_alloc_le r a
      refine ⟨hb.1, hb.2.1, ?_, ?_⟩
      · intro k g hk2
        rcases hb.2.2.1 k g hk2 with h | h
        · exact Or.inl h
        · exact Or.inr (Nat.le_trans hmono h)
      · intro k m hk2
        rcases hb.2.2.2 k m hk2 with h | h
        · exact Or.inl h
        · exact Or.inr (Nat.le_trans hmono h)
  · simp only [build_reaction, if_neg hcn]
    exact build_reaction_body_frame cd r genes lgenes mets lmets a

/-- C10 witness: a concrete build with non-empty caller-supplied caches and a
non-empty passed local gene cache; the caller-supplied caches come back
unchanged, a pre-existing local entry survives untouched, and the gene the
build created in the local cache is a fresh instance (allocation at or above
the entry counter). -/
theorem c10_caller_cache_frame_witness :
    (build_reaction ⟨none, some [⟨"g1", "gn"⟩], some "g1", none,
        some [⟨"x", "n1", "c", 1⟩]⟩
      (reactionStub "R" "Rn") 0
      [("h", ⟨3, "h", "hn", none, none, none⟩)]
      [("old", ⟨4, "old", "on", none, none, none⟩)]
      [("x", ⟨5, "x", "nx", none, none, none, none, none, none, none⟩)]
      [] 10).genesOut = [("h", ⟨3, "h", "hn", none, none, none⟩)] ∧
    (build_reaction ⟨none, some [⟨"g1", "gn"⟩], some "g1", none,
        some [⟨"x", "n1", "c", 1⟩]⟩
      (reactionStub "R" "Rn") 0
      [("h", ⟨3, "h", "hn", none, none, none⟩)]
      [("old", ⟨4, "old", "on", none, none, none⟩)]
      [("x", ⟨5, "x", "nx", none, none, none, none, none, none, none⟩)]
      [] 10).metsOut = [("x", ⟨5, "x", "nx", none, none, none, none, none, none, none⟩)] ∧
    dlookup (build_reaction ⟨none, some [⟨"g1", "gn"⟩], some "g1", none,
        some [⟨"x", "n1", "c", 1⟩]⟩
      (reactionStub "R" "Rn") 0
      [("h", ⟨3, "h", "hn", none, none, none⟩)]
      [("old", ⟨4, "old", "on", none, none, none⟩)]
      [("x", ⟨5, "x", "nx", none, none, none, none, none, none, none⟩)]
      [] 10).lgenesOut "g1" = some ⟨10, "g1", "gn", none, none, none⟩ ∧
    (dlookup [("old", (⟨4, "old", "on", none, none, none⟩ : Gene))] "g1" =
        some ⟨10, "g1", "gn", none, none, none⟩ ∨
      10 ≤ (⟨10, "g1", "gn", none, none, none⟩ : Gene).alloc) :=
  ⟨(c10_caller_cache_frame _ _ 0 _ _ _ _ 10).1,
   (c10_caller_cache_frame _ _ 0 _ _ _ _ 10).2.1,
   by decide,
   (c10_caller_cache_frame ⟨none, some [⟨"g1", "gn"⟩], some "g1", none,
        some [⟨"x", "n1", "c", 1⟩]⟩
      (reactionStub "R" "Rn") 0
      [("h", ⟨3, "h", "hn", none, none, none⟩)]
      [("old", ⟨4, "old", "on", none, none, none⟩)]
      [("x", ⟨5, "x", "nx", none, none, none, none, none, none, none⟩)]
      [] 10).2.2.1 "g1" ⟨10, "g1", "gn", none, none, none⟩ (by decide)⟩

/-- Well-formedness of a metabolite dict: every stored object's id is its
key (which the client's insertions always establish). -/
def wfMDict (lm : MDict) : Prop :=
  ∀ k m, dlookup lm k = some m → m.id = k

/-- Coefficient lookup in a stoichiometry mapping BY metabolite identifier
(first entry wins). -/
def slookup : List (Metabolite × Int) → String → Option Int
  | [], _ => none
  | p :: rest, i => if p.1.id = i then some p.2 else slookup rest i

/-- The coefficient of the LAST record entry with the given compartmental
identifier (replace semantics make the last occurrence win). -/
def lastCoeff : List MetRecord → String → Option Int
  | [], _ => none
  | mr :: rest, i =>
    match lastCoeff rest i with
    | some v => some v
    | none => if compartmentalId mr = i then some mr.stoichiometry else none

/-- An identifier is absent from a stoichiometry exactly when its lookup
fails. -/
theorem slookup_eq_none_iff :
    ∀ (st : List (Metabolite × Int)) (i : String),
      slookup st i = none ↔ i ∉ st.map (fun p => p.1.id) := by
  intro st i
  induction st with
  | nil => simp [slookup]
  | cons p rest ih =>
    simp only [slookup, List.map_cons, List.mem_cons]
    by_cases h : p.1.id = i
    · rw [if_pos h]
      simp [h]
    · rw [if_neg h]
      rw [ih]
      constructor
      · intro hn hc
        cases hc with
        | inl he => exact h he.symm
        | inr hm => exact hn hm
      · intro hn hm
        exact hn (Or.inr hm)

/-- Coefficient lookup across an appended single entry. -/
theorem slookup_append_single (st : List (Metabolite × Int)) (m : Metabolite) (c : Int)
    (i : String) :
    slookup (st ++ [(m, c)]) i =
      match slookup st i with
      | some v => some v
      | none => if m.id = i then some c else none := by
  induction st with
  | nil => simp [slookup]
  | cons p rest ih =>
    simp only [List.cons_append, slookup]
    by_cases h : p.1.id = i
    · rw [if_pos h, if_pos h]
    · rw [if_neg h, if_neg h]
      exact ih

/-- Replacing the coefficients of the entries holding object `m` does not
change lookups at other identifiers. -/
theorem slookup_replace_ne (st : List (Metabolite × Int)) (m : Metabolite) (c : Int)
    (i : String) (hne : ¬ m.id = i) :
    slookup (st.map (fun p => if p.1 = m then (p.1, c) else p)) i = slookup st i := by
  induction st with
  | nil => rfl
  | cons p rest ih =>
    simp only [List.map_cons, slookup]
    by_cases hp : p.1 = m
    · rw [if_pos hp]
      simp only [slookup]
      rw [show ((p.1, c) : Metabolite × Int).1 = p.1 from rfl]
      by_cases hq : p.1.id = i
      · rw [hp] at hq
        exact absurd hq hne
      · rw [if_neg hq, if_neg hq]
        exact ih
    · rw [if_neg hp]
      by_cases hq : p.1.id = i
      · rw [if_pos hq, if_pos hq]
      · rw [if_neg hq, if_neg hq]
        exact ih

/-- When every entry carrying `m`'s identifier IS `m` and some entry does,
replacing `m`'s coefficient makes the lookup at `m.id` return the new
coefficient. -/
theorem slookup_replace_hit (st : List (Metabolite × Int)) (m : Metabolite) (c : Int)
    (hmem : m ∈ st.map Prod.fst) (huniq : ∀ p ∈ st, p.1.id = m.id → p.1 = m) :
    slookup (st.map (fun p => if p.1 = m then (p.1, c) else p)) m.id = some c := by
  induction st with
  | nil => simp at hmem
  | cons p rest ih =>
    simp only [List.map_cons, slookup]
    by_cases hq : p.1.id = m.id
    · have hp : p.1 = m := huniq p (List.mem_cons_self p rest) hq
      rw [if_pos hp]
      simp only [slookup]
      rw [show ((p.1, c) : Metabolite × Int).1 = p.1 from rfl, if_pos hq]
    · have hp : ¬ p.1 = m := fun he => hq (by rw [he])
      rw [if_neg hp]
      simp only [slookup, if_neg hq]
      refine ih ?_ ?_
      · rcases List.mem_map.mp hmem with ⟨q, hqmem, hq1⟩
        cases List.mem_cons.mp hqmem with
        | inl he =>
          rw [he] at hq1
          exact absurd (by rw [hq1]) hq
        | inr hr => exact List.mem_map.mpr ⟨q, hr, hq1⟩
      · intro q hqr hqi
        exact huniq q (List.mem_cons_of_mem p hqr) hqi

/-- The effect of the per-build stoichiometry-dict assignment on lookups:
assigning object `m` the coefficient `c` makes `m.id` map to `c` and leaves
every other identifier unchanged (assuming all entries carrying `m.id` are
`m`, which object-identity keying plus cache consistency guarantees). -/
theorem supdate_slookup (st : List (Metabolite × Int)) (m : Metabolite) (c : Int)
    (huniq : ∀ p ∈ st, p.1.id = m.id → p.1 = m) :
    ∀ i, slookup (supdate st m c) i = if m.id = i then some c else slookup st i := by
  intro i
  rw [supdate]
  by_cases hg : m ∈ st.map Prod.fst
  · rw [if_pos hg]
    by_cases him : m.id = i
    · rw [if_pos him, ← him]
      exact slookup_replace_hit st m c hg huniq
    · rw [if_neg him]
      exact slookup_replace_ne st m c i him
  · rw [if_neg hg, slookup_append_single]
    by_cases him : m.id = i
    · rw [if_pos him]
      have hnone : slookup st i = none := by
        rw [slookup_eq_none_iff]
        intro hmem
        rcases List.mem_map.mp hmem with ⟨p, hp, hpi⟩
        have := huniq p hp (by rw [hpi, him])
        exact hg (List.mem_map.mpr ⟨p, hp, this⟩)
      rw [hnone, if_pos him]
    · cases hs : slookup st i with
      | some v => simp [if_neg him]
      | none => simp [if_neg him]

/-- The identifier list after a stoichiometry-dict assignment: unchanged on a
replace, extended by the new identifier on an append. -/
theorem supdate_ids (st : List (Metabolite × Int)) (m : Metabolite) (c : Int) :
    (supdate st m c).map (fun p => p.1.id) =
      if m ∈ st.map Prod.fst then st.map (fun p => p.1.id)
      else st.map (fun p => p.1.id) ++ [m.id] := by
  rw [supdate]
  by_cases hg : m ∈ st.map Prod.fst
  · rw [if_pos hg, if_pos hg, List.map_map]
    refine List.map_congr_left ?_
    intro p _
    by_cases hp : p.1 = m
    · simp [hp]
    · simp [hp]
  · rw [if_neg hg, if_neg hg, List.map_append]
    rfl

/-- Every object keyed in an updated stoichiometry dict is the assigned
object or one already present. -/
theorem supdate_fst_mem (st : List (Metabolite × Int)) (m : Metabolite) (c : Int) :
    ∀ q ∈ supdate st m c, q.1 = m ∨ q.1 ∈ st.map Prod.fst := by
  intro q hq
  rw [supdate] at hq
  by_cases hg : m ∈ st.map Prod.fst
  · rw [if_pos hg] at hq
    rcases List.mem_map.mp hq with ⟨p, hp, hpq⟩
    by_cases hc : p.1 = m
    · rw [if_pos hc] at hpq
      rw [← hpq]
      exact Or.inl hc
    · rw [if_neg hc] at hpq
      rw [← hpq]
      exact Or.inr (List.mem_map.mpr ⟨p, hp, rfl⟩)
  · rw [if_neg hg] at hq
    rcases List.mem_append.mp hq with hl | hr
    · exact Or.inr (List.mem_map.mpr ⟨q, hl, rfl⟩)
    · rw [List.mem_singleton.mp hr]
      exact Or.inl rfl

/-- A stoichiometry-dict assignment preserves identifier distinctness when
all entries carrying the assigned object's identifier are that object. -/
theorem supdate_nodup (st : List (Metabolite × Int)) (m : Metabolite) (c : Int)
    (huniq : ∀ p ∈ st, p.1.id = m.id → p.1 = m)
    (hnodup : (st.map (fun p => p.1.id)).Nodup) :
    ((supdate st m c).map (fun p => p.1.id)).Nodup := by
  rw [supdate_ids]
  by_cases hg : m ∈ st.map Prod.fst
  · rw [if_pos hg]
    exact hnodup
  · rw [if_neg hg, List.nodup_append]
    refine ⟨hnodup, List.nodup_singleton _, ?_⟩
    intro i hi hi2
    rw [List.mem_singleton.mp hi2] at hi
    rcases List.mem_map.mp hi with ⟨p, hp, hpi⟩
    exact hg (List.mem_map.mpr ⟨p, hp, huniq p hp hpi⟩)

/-- Well-formedness is preserved by inserting a value whose id is its key. -/
theorem wfMDict_dinsert (lm : MDict) (cid : String) (m : Metabolite)
    (hwf : wfMDict lm) (hid : m.id = cid) : wfMDict (dinsert lm cid m) := by
  intro k m1 hk
  rcases dlookup_dinsert lm cid k m m1 hk with h | h
  · exact hwf k m1 h
  · rw [h.2.1, hid, h.1]

/-- Lookup is preserved by insertion of a fresh key. -/
theorem dlookup_dinsert_preserve {α : Type} (d : List (String × α)) (k0 k : String)
    (v w : α) (h : dlookup d k = some w) : dlookup (dinsert d k0 v) k = some w := by
  rw [dinsert, dlookup_append, h]

/-- Inserting an absent key makes its lookup return the inserted value. -/
theorem dlookup_dinsert_new {α : Type} (d : List (String × α)) (k0 : String) (v : α)
    (h : dlookup d k0 = none) : dlookup (dinsert d k0 v) k0 = some v := by
  rw [dinsert, dlookup_append, h]
  simp [dlookup]

/-- What `resolveMetabolite` guarantees on a well-formed local cache: the
resolved object carries the compartmental identifier, well-formedness is
preserved, the local cache maps the compartmental identifier to the resolved
object, prior entries survive, and the compartmental identifier either
already mapped to the resolved object or was absent. -/
theorem resolveMetabolite_spec (metsEmpty : Bool) (mets lm : MDict) (a : Nat)
    (mr : MetRecord) (hwf : wfMDict lm) :
    (resolveMetabolite metsEmpty mets lm a mr).1.id = compartmentalId mr ∧
    wfMDict (resolveMetabolite metsEmpty mets lm a mr).2.1 ∧
    dlookup (resolveMetabolite metsEmpty mets lm a mr).2.1 (compartmentalId mr) =
      some (resolveMetabolite metsEmpty mets lm a mr).1 ∧
    (∀ k m0, dlookup lm k = some m0 →
      dlookup (resolveMetabolite metsEmpty mets lm a mr).2.1 k = some m0) ∧
    (dlookup lm (compartmentalId mr) = some (resolveMetabolite metsEmpty mets lm a mr).1 ∨
      dlookup lm (compartmentalId mr) = none) := by
  simp only [resolveMetabolite]
  cases hl : dlookup lm (compartmentalId mr) with
  | some m =>
    exact ⟨hwf _ m hl, hwf, hl, fun k m0 hk => hk, Or.inl rfl⟩
  | none =>
    cases hmid : (if metsEmpty then dlookup lm mr.biggId else dlookup mets mr.biggId) with
    | some m0 =>
      refine ⟨rfl, ?_, ?_, ?_, Or.inr rfl⟩
      · exact wfMDict_dinsert lm (compartmentalId mr) _ hwf rfl
      · exact dlookup_dinsert_new lm (compartmentalId mr) _ hl
      · intro k m1 hk
        exact dlookup_dinsert_preserve lm (compartmentalId mr) k _ m1 hk
    | none =>
      refine ⟨rfl, ?_, ?_, ?_, Or.inr rfl⟩
      · exact wfMDict_dinsert lm (compartmentalId mr) _ hwf rfl
      · exact dlookup_dinsert_new lm (compartmentalId mr) _ hl
      · intro k m1 hk
        exact dlookup_dinsert_preserve lm (compartmentalId mr) k _ m1 hk

/-- Master invariants of the metabolite loop: on a well-formed local cache,
with a stoichiometry dict whose keys are cache-consistent and whose
identifiers are distinct, the loop preserves all three properties and its
accumulated stoichiometry maps each identifier to the LAST record coefficient
for that identifier (replace semantics), falling back to the incoming
coefficient. -/
theorem stoichPhase_spec (metsEmpty : Bool) (mets : MDict) :
    ∀ (ml : List MetRecord) (st : List (Metabolite × Int)) (lm : MDict) (a : Nat),
      wfMDict lm →
      (∀ p ∈ st, dlookup lm p.1.id = some p.1) →
      ((st.map (fun p => p.1.id)).Nodup) →
      wfMDict (stoichPhase metsEmpty mets ml st lm a).2.1 ∧
      (∀ p ∈ (stoichPhase metsEmpty mets ml st lm a).1,
        dlookup (stoichPhase metsEmpty mets ml st lm a).2.1 p.1.id = some p.1) ∧
      (((stoichPhase metsEmpty mets ml st lm a).1.map (fun p => p.1.id)).Nodup) ∧
      (∀ i, slookup (stoichPhase metsEmpty mets ml st lm a).1 i =
        match lastCoeff ml i with
        | some v => some v
        | none => slookup st i) := by
  intro ml
  induction ml with
  | nil =>
    intro st lm a hwf hinv hnodup
    refine ⟨hwf, hinv, hnodup, ?_⟩
    intro i
    simp [stoichPhase, lastCoeff]
  | cons mr rest ih =>
    intro st lm a hwf hinv hnodup
    obtain ⟨hid, hwf1, hlook, hpres, hbr⟩ :=
      resolveMetabolite_spec metsEmpty mets lm a mr hwf
    have huniq : ∀ p ∈ st, p.1.id = (resolveMetabolite metsEmpty mets lm a mr).1.id →
        p.1 = (resolveMetabolite metsEmpty mets lm a mr).1 := by
      intro p hp hpi
      have hl := hinv p hp
      rw [hpi, hid] at hl
      cases hbr with
      | inl hb =>
        rw [hl] at hb
        exact Option.some.injEq _ _ ▸ hb
      | inr hb =>
        rw [hl] at hb
        cases hb
    have hinv1 : ∀ p ∈ supdate st (resolveMetabolite metsEmpty mets lm a mr).1
        mr.stoichiometry,
        dlookup (resolveMetabolite metsEmpty mets lm a mr).2.1 p.1.id = some p.1 := by
      intro q hq
      rcases supdate_fst_mem st _ mr.stoichiometry q hq with h | h
      · rw [h, hid]
        exact hlook
      · rcases List.mem_map.mp h with ⟨p, hp, hpq⟩
        rw [← hpq]
        exact hpres _ _ (hinv p hp)
    have hnodup1 := supdate_nodup st _ mr.stoichiometry huniq hnodup
    have hrec := ih (supdate st (resolveMetabolite metsEmpty mets lm a mr).1
        mr.stoichiometry)
      (resolveMetabolite metsEmpty mets lm a mr).2.1
      (resolveMetabolite metsEmpty mets lm a mr).2.2 hwf1 hinv1 hnodup1
    simp only [stoichPhase]
    refine ⟨hrec.1, hrec.2.1, hrec.2.2.1, ?_⟩
    intro i
    rw [hrec.2.2.2 i]
    have hupd := supdate_slookup st _ mr.stoichiometry huniq i
    rw [hid] at hupd
    simp only [lastCoeff]
    cases hlc : lastCoeff rest i with
    | some v => rfl
    | none =>
      rw [hupd]
      by_cases hc : compartmentalId mr = i
      · rw [if_pos hc, if_pos hc]
      · rw [if_neg hc, if_neg hc]

/-- Replacing coefficients by identifier leaves the identifier list
unchanged. -/
theorem replaceById_ids (old : List (Metabolite × Int)) (mid : String) (c : Int) :
    ((old.map (fun p => if p.1.id = mid then (p.1, c) else p)).map
      (fun p => p.1.id)) = old.map (fun p => p.1.id) := by
  rw [List.map_map]
  refine List.map_congr_left ?_
  intro p _
  by_cases hp : p.1.id = mid
  · simp [hp]
  · simp [hp]

/-- Replacing coefficients by identifier does not change lookups at other
identifiers. -/
theorem slookup_replaceById_ne (old : List (Metabolite × Int)) (mid : String) (c : Int)
    (i : String) (hne : ¬ mid = i) :
    slookup (old.map (fun p => if p.1.id = mid then (p.1, c) else p)) i =
      slookup old i := by
  induction old with
  | nil => rfl
  | cons p rest ih =>
    simp only [List.map_cons, slookup]
    by_cases hp : p.1.id = mid
    · rw [if_pos hp]
      simp only [slookup]
      rw [show ((p.1, c) : Metabolite × Int).1 = p.1 from rfl]
      by_cases hq : p.1.id = i
      · rw [hp] at hq
        exact absurd hq hne
      · rw [if_neg hq, if_neg hq]
        exact ih
    · rw [if_neg hp]
      by_cases hq : p.1.id = i
      · rw [if_pos hq, if_pos hq]
      · rw [if_neg hq, if_neg hq]
        exact ih

/-- Replacing coefficients by a present identifier makes the lookup at that
identifier return the new coefficient. -/
theorem slookup_replaceById_hit (old : List (Metabolite × Int)) (mid : String) (c : Int)
    (hmem : mid ∈ old.map (fun p => p.1.id)) :
    slookup (old.map (fun p => if p.1.id = mid then (p.1, c) else p)) mid = some c := by
  induction old with
  | nil => simp at hmem
  | cons p rest ih =>
    simp only [List.map_cons, slookup]
    by_cases hp : p.1.id = mid
    · rw [if_pos hp]
      simp only [slookup]
      rw [show ((p.1, c) : Metabolite × Int).1 = p.1 from rfl, if_pos hp]
    · rw [if_neg hp]
      by_cases hq : p.1.id = mid
      · exact absurd hq hp
      · rw [if_neg hq]
        refine ih ?_
        simp only [List.map_cons, List.mem_cons] at hmem
        rcases hmem with he | hr
        · exact absurd he.symm hp
        · exact hr

/-- `add_metabolites(…, combine=False)` through the cobra collaborator:
identifier distinctness is preserved, and each identifier maps to the applied
stoichiometry's coefficient when the identifier occurs there, falling back to
the pre-existing coefficient (replacement, never summation). -/
theorem applyStoich_spec :
    ∀ (st old : List (Metabolite × Int)),
      ((old.map (fun p => p.1.id)).Nodup) → ((st.map (fun p => p.1.id)).Nodup) →
      (((applyStoich old st).map (fun p => p.1.id)).Nodup) ∧
      (∀ i, slookup (applyStoich old st) i =
        match slookup st i with
        | some v => some v
        | none => slookup old i) := by
  intro st
  induction st with
  | nil =>
    intro old hold _
    refine ⟨hold, ?_⟩
    intro i
    simp [applyStoich, slookup]
  | cons q rest ih =>
    intro old hold hst
    obtain ⟨m, c⟩ := q
    have hst2 : (m.id :: rest.map (fun p => p.1.id)).Nodup := by
      simpa only [List.map_cons] using hst
    have hstr : ((rest.map (fun p => p.1.id)).Nodup) := (List.nodup_cons.mp hst2).2
    have hmni : m.id ∉ rest.map (fun p => p.1.id) := (List.nodup_cons.mp hst2).1
    simp only [applyStoich]
    by_cases hg : m.id ∈ old.map (fun p => p.1.id)
    · rw [if_pos hg]
      have hold1 : (((old.map (fun p => if p.1.id = m.id then (p.1, c) else p)).map
          (fun p => p.1.id)).Nodup) := by
        rw [replaceById_ids]
        exact hold
      have hrec := ih _ hold1 hstr
      refine ⟨hrec.1, ?_⟩
      intro i
      rw [hrec.2 i]
      simp only [slookup]
      by_cases him : m.id = i
      · rw [if_pos him]
        have hrn : slookup rest i = none := by
          rw [slookup_eq_none_iff, ← him]
          exact hmni
        rw [hrn, ← him, slookup_replaceById_hit old m.id c hg]
      · rw [if_neg him]
        cases hs : slookup rest i with
        | some v => rfl
        | none => exact slookup_replaceById_ne old m.id c i him
    · rw [if_neg hg]
      have hold1 : (((old ++ [(m, c)]).map (fun p => p.1.id)).Nodup) := by
        rw [List.map_append]
        rw [List.nodup_append]
        refine ⟨hold, by simp, ?_⟩
        intro i hi hi2
        simp at hi2
        rw [hi2] at hi
        exact hg hi
      have hrec := ih _ hold1 hstr
      refine ⟨hrec.1, ?_⟩
      intro i
      rw [hrec.2 i]
      simp only [slookup]
      by_cases him : m.id = i
      · rw [if_pos him]
        have hrn : slookup rest i = none := by
          rw [slookup_eq_none_iff, ← him]
          exact hmni
        have hon : slookup old i = none := by
          rw [slookup_eq_none_iff, ← him]
          exact hg
        rw [hrn, slookup_append_single, hon, if_pos him]
      · rw [if_neg him]
        cases hs : slookup rest i with
        | some v => rfl
        | none =>
          rw [slookup_append_single]
          cases ho : slookup old i with
          | some v => rfl
          | none => rw [if_neg him]

/-- Every record entry's compartmental identifier has a last coefficient. -/
theorem lastCoeff_isSome :
    ∀ (ml : List MetRecord), ∀ mr ∈ ml, (lastCoeff ml (compartmentalId mr)).isSome := by
  intro ml
  induction ml with
  | nil => intro mr hmr; simp at hmr
  | cons mr0 rest ih =>
    intro mr hmr
    simp only [lastCoeff]
    rcases List.mem_cons.mp hmr with he | hr
    · cases hlc : lastCoeff rest (compartmentalId mr) with
      | some v => rfl
      | none =>
        rw [he, if_pos rfl]
        rfl
    · cases hlc : lastCoeff rest (compartmentalId mr) with
      | some v => rfl
      | none =>
        have := ih mr hr
        rw [hlc] at this
        cases this

/-- The gene loop never touches the reaction's stoichiometry. -/
theorem genePhase_stoich (genesEmpty : Bool) (genes : GDict) :
    ∀ (glist : List GeneRecord) (gset : List Gene) (rc : Reaction) (lg : GDict) (a : Nat),
      (genePhase genesEmpty genes glist gset rc lg a).1.stoich = rc.stoich := by
  intro glist
  induction glist with
  | nil => intro gset rc lg a; rfl
  | cons gr rest ih =>
    intro gset rc lg a
    simp only [genePhase]
    rw [ih]

/-- Deep-copying a stoichiometry preserves the identifier sequence. -/
theorem deepcopyStoich_ids :
    ∀ (st : List (Metabolite × Int)) (a : Nat),
      ((deepcopyStoich st a).1.map (fun p => p.1.id)) = st.map (fun p => p.1.id) := by
  intro st
  induction st with
  | nil => intro a; rfl
  | cons p rest ih =>
    intro a
    simp only [deepcopyStoich, List.map_cons]
    rw [ih (a + 1)]

/-- Applying the metabolite loop's accumulated stoichiometry (started empty)
to a reaction whose stoichiometry has distinct identifiers, with a
well-formed local cache: identifiers stay distinct and each record
identifier maps to its last record coefficient. -/
theorem assembled_stoich_spec (st0 : List (Metabolite × Int)) (metsEmpty : Bool)
    (mets lmets : MDict) (ml : List MetRecord) (a1 : Nat)
    (hwf : wfMDict lmets) (hnodup : (st0.map (fun p => p.1.id)).Nodup) :
    (((applyStoich st0 (stoichPhase metsEmpty mets ml [] lmets a1).1).map
        (fun p => p.1.id)).Nodup) ∧
    ∀ mr ∈ ml,
      slookup (applyStoich st0 (stoichPhase metsEmpty mets ml [] lmets a1).1)
          (compartmentalId mr) = lastCoeff ml (compartmentalId mr) ∧
      (lastCoeff ml (compartmentalId mr)).isSome := by
  have hsp := stoichPhase_spec metsEmpty mets ml [] lmets a1 hwf
    (by intro p hp; simp at hp) (by simp)
  have hap := applyStoich_spec (stoichPhase metsEmpty mets ml [] lmets a1).1 st0
    hnodup hsp.2.2.1
  refine ⟨hap.1, ?_⟩
  intro mr hmr
  have hsome := lastCoeff_isSome ml mr hmr
  obtain ⟨v, hv⟩ := Option.isSome_iff_exists.mp hsome
  have h1 := hsp.2.2.2 (compartmentalId mr)
  rw [hv] at h1
  have h2 := hap.2 (compartmentalId mr)
  rw [h1] at h2
  refine ⟨by rw [h2, hv], by rw [hv]; rfl⟩

/-- C6: `_build_reaction` applies the copy record's stoichiometry with
replace semantics.  On any copy record carrying a metabolite list, a
well-formed passed local cache, and a reaction whose stoichiometry has
pairwise-distinct metabolite identifiers, the assembled reaction again has
pairwise-distinct metabolite identifiers (never two entries with the same
identifier), and every record entry's compartmental identifier maps to the
LAST coefficient the record declares for it — the record coefficient
replaces any pre-existing coefficient instead of being summed with it. -/
theorem c6_replace_semantics :
    ∀ (cd : CopyRecord) (r : Reaction) (cn : Int) (genes lgenes : GDict)
      (mets lmets : MDict) (a : Nat) (ml : List MetRecord) (rr : Reaction),
      cd.metabolites = some ml →
      wfMDict lmets →
      ((r.stoich.map (fun p => p.1.id)).Nodup) →
      (build_reaction cd r cn genes lgenes mets lmets a).result = .ok rr →
      ((rr.stoich.map (fun p => p.1.id)).Nodup) ∧
      ∀ mr ∈ ml,
        slookup rr.stoich (compartmentalId mr) = lastCoeff ml (compartmentalId mr) ∧
        (lastCoeff ml (compartmentalId mr)).isSome := by
  intro cd r cn genes lgenes mets lmets a ml rr hml hwf hnodup hok
  have hbody : ∀ (rc0 : Reaction) (a0 : Nat),
      ((rc0.stoich.map (fun p => p.1.id)).Nodup) →
      (build_reaction_body cd rc0 genes lgenes mets lmets a0).result = .ok rr →
      ((rr.stoich.map (fun p => p.1.id)).Nodup) ∧
      ∀ mr ∈ ml,
        slookup rr.stoich (compartmentalId mr) = lastCoeff ml (compartmentalId mr) ∧
        (lastCoeff ml (compartmentalId mr)).isSome := by
    intro rc0 a0 hnd hok2
    simp only [build_reaction_body] at hok2
    cases hg : cd.genes with
    | some glist =>
      rw [hg] at hok2
      cases hrule : cd.geneReactionRule with
      | none =>
        rw [hrule] at hok2
        cases hok2
      | some rule =>
        rw [hrule, hml] at hok2
        simp only [] at hok2
        have hrr : rr = add_metabolites
            { (genePhase genes.isEmpty genes glist [] rc0 lgenes a0).1 with
              geneReactionRule := rule }
            (stoichPhase mets.isEmpty mets ml []
              lmets (genePhase genes.isEmpty genes glist [] rc0 lgenes a0).2.2).1 := by
          cases hok2
          rfl
        have hspec := assembled_stoich_spec
          (genePhase genes.isEmpty genes glist [] rc0 lgenes a0).1.stoich
          mets.isEmpty mets lmets ml
          (genePhase genes.isEmpty genes glist [] rc0 lgenes a0).2.2 hwf
          (by rw [genePhase_stoich]; exact hnd)
        rw [hrr]
        exact hspec
    | none =>
      rw [hg] at hok2
      cases hmc : cd.modelsContainingReaction with
      | some ms =>
        rw [hmc, hml] at hok2
        simp only [] at hok2
        have hrr : rr = add_metabolites
            { rc0 with annModelsContainingReaction := some ms }
            (stoichPhase mets.isEmpty mets ml [] lmets a0).1 := by
          cases hok2
          rfl
        have hspec := assembled_stoich_spec rc0.stoich mets.isEmpty mets lmets ml a0
          hwf hnd
        rw [hrr]
        exact hspec
      | none =>
        rw [hmc, hml] at hok2
        simp only [] at hok2
        have hrr : rr = add_metabolites rc0
            (stoichPhase mets.isEmpty mets ml [] lmets a0).1 := by
          cases hok2
          rfl
        have hspec := assembled_stoich_spec rc0.stoich mets.isEmpty mets lmets ml a0
          hwf hnd
        rw [hrr]
        exact hspec
  by_cases hcn : cn > 0
  · cases hk : cd.copyNumber with
    | none =>
      simp only [build_reaction, if_pos hcn, hk] at hok
      cases hok
    | some n =>
      simp only [build_reaction, if_pos hcn, hk] at hok
      refine hbody _ _ ?_ hok
      show ((((reactionDeepcopy r a).1).stoich.map (fun p => p.1.id)).Nodup)
      simp only [reactionDeepcopy]
      rw [deepcopyStoich_ids]
      exact hnodup
  · simp only [build_reaction, if_neg hcn] at hok
    exact hbody r a hnodup hok

/-- C6 witness: a concrete build whose record lists the same compartmental
identifier twice (coefficients 1 then 5) over a base reaction that already
holds a coefficient for it: the result keeps distinct identifiers and maps
`x_c` to the last record coefficient 5 — replaced, not summed. -/
theorem c6_replace_semantics_witness :
    (⟨none, none, none, none, some [⟨"x", "n1", "c", 1⟩, ⟨"x", "n1", "c", 5⟩]⟩ :
      CopyRecord).metabolites = some [⟨"x", "n1", "c", 1⟩, ⟨"x", "n1", "c", 5⟩] ∧
    wfMDict [] ∧
    ((([( ⟨9, "x_c", "old", some "c", none, none, none, none, none, none⟩, (3 : Int) )] :
      List (Metabolite × Int)).map (fun p => p.1.id)).Nodup) ∧
    (build_reaction
        ⟨none, none, none, none, some [⟨"x", "n1", "c", 1⟩, ⟨"x", "n1", "c", 5⟩]⟩
        ⟨"R", "Rn", [(⟨9, "x_c", "old", some "c", none, none, none, none, none, none⟩, 3)],
          [], "", none, none, none, none⟩
        0 [] [] [] [] 20).result =
      .ok (add_metabolites
        ⟨"R", "Rn", [(⟨9, "x_c", "old", some "c", none, none, none, none, none, none⟩, 3)],
          [], "", none, none, none, none⟩
        (stoichPhase (([] : MDict)).isEmpty [] [⟨"x", "n1", "c", 1⟩, ⟨"x", "n1", "c", 5⟩]
          [] [] 20).1) ∧
    ((((add_metabolites
        ⟨"R", "Rn", [(⟨9, "x_c", "old", some "c", none, none, none, none, none, none⟩, 3)],
          [], "", none, none, none, none⟩
        (stoichPhase (([] : MDict)).isEmpty [] [⟨"x", "n1", "c", 1⟩, ⟨"x", "n1", "c", 5⟩]
          [] [] 20).1).stoich.map (fun p => p.1.id)).Nodup)) ∧
    slookup (add_metabolites
        ⟨"R", "Rn", [(⟨9, "x_c", "old", some "c", none, none, none, none, none, none⟩, 3)],
          [], "", none, none, none, none⟩
        (stoichPhase (([] : MDict)).isEmpty [] [⟨"x", "n1", "c", 1⟩, ⟨"x", "n1", "c", 5⟩]
          [] [] 20).1).stoich "x_c" = some 5 := by
  refine ⟨rfl, ?_, by decide, by decide, ?_, by decide⟩
  · intro k m hk
    cases hk
  · have h := c6_replace_semantics
      ⟨none, none, none, none, some [⟨"x", "n1", "c", 1⟩, ⟨"x", "n1", "c", 5⟩]⟩
      ⟨"R", "Rn", [(⟨9, "x_c", "old", some "c", none, none, none, none, none, none⟩, 3)],
        [], "", none, none, none, none⟩
      0 [] [] [] [] 20 [⟨"x", "n1", "c", 1⟩, ⟨"x", "n1", "c", 5⟩]
      (add_metabolites
        ⟨"R", "Rn", [(⟨9, "x_c", "old", some "c", none, none, none, none, none, none⟩, 3)],
          [], "", none, none, none, none⟩
        (stoichPhase (([] : MDict)).isEmpty [] [⟨"x", "n1", "c", 1⟩, ⟨"x", "n1", "c", 5⟩]
          [] [] 20).1)
      rfl (by intro k m hk; cases hk) (by decide) (by decide)
    exact h.1
